import Mathlib

/-!
# siaskynetpp.cpp: a shallow embedding

The portal client of `siaskynetpp.cpp` (upload, query, read) together with the
parts of the C++ standard library, of `nlohmann::json` and of `cpr` that it
calls.

* A `std::string` is a `List Char`, one `Char` per C++ `char`.
* `size_t` is a `Nat` taken modulo `2 ^ 64` where the code can wrap.
* A function that can throw, or whose behaviour can be undefined, returns a
  `Result`; the transport is a function from requests to responses and every
  operation returns the requests it issued together with its outcome.
-/

namespace sia

/-- The contents of a `std::string`. -/
abbrev Str := List Char

/-- The modulus of `size_t` arithmetic (LP64). -/
def SIZE_MODULUS : Nat := 2 ^ 64

/-- Ways in which a call does not return a value: the C++ exceptions thrown by
the code and its libraries, and `undefined` for an execution with no defined
behaviour (an out-of-bounds read, a failed `JSON_ASSERT`, a float-to-integer
cast out of range). -/
inductive Failure where
  /-- Models `std::runtime_error`, thrown by `skynet::read`; `what` is the C string
  that `what()` returns. -/
  | runtime_error (what : Str)
  /-- Models `nlohmann::json::parse_error`. -/
  | parse_error
  /-- Models `nlohmann::json::type_error` with its numeric id (302, 305). -/
  | type_error (id : Nat)
  /-- Models `std::invalid_argument`, thrown by `std::stoul`. -/
  | invalid_argument
  /-- Models `std::out_of_range`, thrown by `std::stoul` and `std::string::substr`. -/
  | out_of_range
  /-- No exception: the behaviour is undefined. -/
  | undefined
  deriving DecidableEq, Repr

/-- Outcome of a call. -/
abbrev Result (α : Type) := Except Failure α

/-- Outcomes over a type with decidable equality can be compared. -/
instance decEqResult {α : Type} [DecidableEq α] : DecidableEq (Result α)
  | .ok a, .ok b =>
    if h : a = b then isTrue (congrArg Except.ok h)
    else isFalse (fun h' => h (Except.ok.inj h'))
  | .error a, .error b =>
    if h : a = b then isTrue (congrArg Except.error h)
    else isFalse (fun h' => h (Except.error.inj h'))
  | .ok _, .error _ => isFalse (fun h => Except.noConfusion h)
  | .error _, .ok _ => isFalse (fun h => Except.noConfusion h)

/-! ## `std::string` -/

/-- Three-way comparison of two strings by `unsigned char` value
(`std::char_traits<char>::compare` followed by the length comparison);
only the sign is specified, and `-1`, `0`, `1` are returned. -/
def compareStr : Str → Str → Int
  | [], [] => 0
  | [], _ :: _ => -1
  | _ :: _, [] => 1
  | a :: as, b :: bs =>
    if a.toNat < b.toNat then -1
    else if b.toNat < a.toNat then 1
    else compareStr as bs

/-- Models `s.compare(pos, len, t)`: throws `std::out_of_range` when `pos > s.size()`. -/
def compare (s : Str) (pos len : Nat) (t : Str) : Result Int :=
  if s.length < pos then .error .out_of_range
  else .ok (compareStr ((s.drop pos).take len) t)

/-- Models `s.substr(pos)`: throws `std::out_of_range` when `pos > s.size()`. -/
def substr (s : Str) (pos : Nat) : Result Str :=
  if s.length < pos then .error .out_of_range
  else .ok (s.drop pos)

/-- Models `s[pos]` on a const string: the character at `pos`, the null character at
`pos == s.size()`, undefined beyond. -/
def charAt (s : Str) (pos : Nat) : Result Char :=
  if h : pos < s.length then .ok (s.get ⟨pos, h⟩)
  else if pos = s.length then .ok (Char.ofNat 0)
  else .error .undefined

/-- Search loop of `find`: the first index, counted from `i`, at which `pat`
is a prefix of the remaining text. -/
def findFrom (pat : Str) : Str → Nat → Option Nat
  | [], i => if pat.isPrefixOf [] then some i else none
  | c :: t, i => if pat.isPrefixOf (c :: t) then some i else findFrom pat t (i + 1)

/-- Models `s.find(pat, pos)`; `none` stands for `std::string::npos`. -/
def find (s pat : Str) (pos : Nat) : Option Nat :=
  if s.length < pos then none else findFrom pat (s.drop pos) pos

/-- Models `s.find(ch, pos)` for a single character; `none` stands for `npos`. -/
def findChar (s : Str) (ch : Char) (pos : Nat) : Option Nat :=
  find s [ch] pos

/-- The string built from the iterator range `{s.begin() + first, s.begin() + last}`:
undefined unless `first ≤ last ≤ s.size()`. -/
def range (s : Str) (first last : Nat) : Result Str :=
  if first ≤ last ∧ last ≤ s.length then .ok ((s.drop first).take (last - first))
  else .error .undefined

/-- The C string that `what()` returns for a `std::runtime_error` built from
`message`: the characters of `message` before its first null character. -/
def cString (message : Str) : Str :=
  message.takeWhile (fun c => c != Char.ofNat 0)

/-- Models `isspace` in the C locale. -/
def isspace (c : Char) : Bool :=
  c = ' ' || c = '\t' || c = '\n' || c = Char.ofNat 11 || c = Char.ofNat 12 || c = '\r'

/-- Value of a run of decimal digits, most significant first. -/
def digitsValue (ds : Str) : Nat :=
  ds.foldl (fun acc c => acc * 10 + (c.toNat - 48)) 0

/-- The optional sign that `strtoul` reads: whether it is `-`, and the text
after the sign. -/
def readSign : Str → Bool × Str
  | '-' :: t => (true, t)
  | '+' :: t => (false, t)
  | s => (false, s)

/-- Models `std::stoul(str)` (base 10, `unsigned long` of 64 bits), that is `strtoul`:
skip leading white space, read an optional sign, then the longest run of
decimal digits; whatever follows is ignored. No digit: `std::invalid_argument`.
A value above `ULONG_MAX`: `std::out_of_range`. A leading `-` negates the
value in `unsigned long`. -/
def stoul (str : Str) : Result Nat :=
  let signed := readSign (str.dropWhile isspace)
  let digits := signed.2.takeWhile Char.isDigit
  if digits = [] then .error .invalid_argument
  else if SIZE_MODULUS ≤ digitsValue digits then .error .out_of_range
  else if signed.1 then .ok ((SIZE_MODULUS - digitsValue digits) % SIZE_MODULUS)
  else .ok (digitsValue digits)

/-! ## URL and skylink utilities (lines 28-46) -/

/-- Source `trimSiaPrefix` (lines 28-35). -/
def trimSiaPrefix (skylink : Str) : Result Str := do
  let c ← compare skylink 0 6 "sia://".toList
  if 0 = c then substr skylink 6 else pure skylink

/-- Source `trimTrailingSlash` (lines 37-46): `url.size() - 1` is computed in
`size_t`, so it wraps to `2 ^ 64 - 1` on the empty string. -/
def trimTrailingSlash (url : Str) : Result Str := do
  let c ← charAt url ((url.length + SIZE_MODULUS - 1) % SIZE_MODULUS)
  if c = '/' then pure (url.take ((url.length + SIZE_MODULUS - 1) % SIZE_MODULUS))
  else pure url

/-! ## Content-Disposition parser (lines 147-166) -/

/-- Source `extractContentDispositionFilename` (lines 147-166). -/
def extractContentDispositionFilename (content_disposition : Str) : Result Str :=
  match find content_disposition "filename=".toList 0 with
  | none => .ok []
  | some found => do
    let start := found + 9
    let first_char ← charAt content_disposition start
    let quoted : Bool := first_char = '\'' || first_char = '"'
    let start := if quoted then start + 1 else start
    let last_char := if quoted then first_char else ';'
    let stop :=
      match findChar content_disposition last_char start with
      | none => content_disposition.length
      | some e => e
    range content_disposition start stop

/-! ## `nlohmann::json` -/

/-- A `nlohmann::json` value as `nlohmann::json::parse` builds it (the `binary`
and `discarded` kinds are never built by `parse`). An object is a
`std::map<std::string, json>`: its entries are listed in the order in which the
map is iterated. A `number_float m e` is the finite double `m * 2 ^ e`. -/
inductive Json where
  | null
  | boolean (b : Bool)
  | number_integer (i : Int)
  | number_unsigned (n : Nat)
  | number_float (m : Int) (e : Int)
  | string (s : Str)
  | array (elements : List Json)
  | object (entries : List (Str × Json))

/-- A JSON text after the grammar has been recognised and before the value is
built: the constructors of `Json`, the members of an object in the order in
which they are written, repeated names included. -/
inductive Document where
  | null
  | boolean (b : Bool)
  | number_integer (i : Int)
  | number_unsigned (n : Nat)
  | number_float (m : Int) (e : Int)
  | string (s : Str)
  | array (elements : List Document)
  | object (members : List (Str × Document))

/-- The order of `std::less<std::string>`: `a < b`. -/
def strLt (a b : Str) : Bool := compareStr a b < 0

/-- Models `std::map::find` on the entries of an object. -/
def lookup (key : Str) : List (Str × Json) → Option Json
  | [] => none
  | (k, v) :: rest => if k = key then some v else lookup key rest

/-- Models `map[key] = value` on the entries of an object: the value of an existing
key is replaced, a new key is inserted at its place in the order. -/
def assign (key : Str) (value : Json) : List (Str × Json) → List (Str × Json)
  | [] => [(key, value)]
  | (k, v) :: rest =>
    if k = key then (key, value) :: rest
    else if strLt key k then (key, value) :: (k, v) :: rest
    else (k, v) :: assign key value rest

mutual
/-- The value that `nlohmann::json::parse` builds from a recognised text: each
member of an object is stored with `operator[]` in the order of the text, so a
repeated name keeps its last value and the entries end up ordered by name. -/
def Document.dom : Document → Json
  | .null => .null
  | .boolean b => .boolean b
  | .number_integer i => .number_integer i
  | .number_unsigned n => .number_unsigned n
  | .number_float m e => .number_float m e
  | .string s => .string s
  | .array elements => .array (Document.domElements elements)
  | .object members => .object (Document.domMembers members [])
/-- Elements of an array, in order. -/
def Document.domElements : List Document → List Json
  | [] => []
  | d :: ds => Document.dom d :: Document.domElements ds
/-- Members of an object, stored one after the other into the map `acc`. -/
def Document.domMembers : List (Str × Document) → List (Str × Json) → List (Str × Json)
  | [], acc => acc
  | (k, d) :: ms, acc => Document.domMembers ms (assign k (Document.dom d) acc)
end

/-- Models `nlohmann::json::parse(text)`. The grammar of JSON texts belongs to the
JSON collaborator and is a parameter: `grammar text` is the recognised text,
or `none` when `text` is not a JSON text. -/
def json_parse (grammar : Str → Option Document) (text : Str) : Result Json :=
  match grammar text with
  | none => .error .parse_error
  | some d => .ok d.dom

namespace Json

/-- Models `j.contains(key)`: true only for an object that has the key. -/
def contains (j : Json) (key : Str) : Bool :=
  match j with
  | .object entries => (lookup key entries).isSome
  | _ => false

/-- Models `j[key]` on a const value: throws `type_error` 305 unless `j` is an object;
on an object without the key the behaviour is undefined (a `JSON_ASSERT`). -/
def constAt (j : Json) (key : Str) : Result Json :=
  match j with
  | .object entries =>
    match lookup key entries with
    | some v => .ok v
    | none => .error .undefined
  | _ => .error (.type_error 305)

/-- Models `j[key]` on a non-const value, read: `null` first becomes an empty object;
a missing key is inserted with the value `null`; throws `type_error` 305 on
any other kind of value. -/
def refAt (j : Json) (key : Str) : Result Json :=
  match j with
  | .null => .ok .null
  | .object entries =>
    match lookup key entries with
    | some v => .ok v
    | none => .ok .null
  | _ => .error (.type_error 305)

/-- Models `j[key] = value` on a non-const value: the value of `j` afterwards. -/
def set (j : Json) (key : Str) (value : Json) : Result Json :=
  match j with
  | .null => .ok (.object [(key, value)])
  | .object entries => .ok (.object (assign key value entries))
  | _ => .error (.type_error 305)

/-- Models `j.get<std::string>()`: throws `type_error` 302 unless `j` is a string. -/
def getString (j : Json) : Result Str :=
  match j with
  | .string s => .ok s
  | _ => .error (.type_error 302)

/-- Models `static_cast<size_t>` of the finite double `m * 2 ^ e`: the value is
truncated toward zero; undefined when the truncated value is not a `size_t`. -/
def floatToSize (m e : Int) : Result Nat :=
  let t : Int := if 0 ≤ e then m * 2 ^ e.toNat else Int.tdiv m (2 ^ (-e).toNat)
  if 0 ≤ t ∧ t < SIZE_MODULUS then .ok t.toNat else .error .undefined

/-- Models `j.get<size_t>()` where `size_t` is `std::uint64_t`: a number of any of the
three kinds is converted with `static_cast`, anything else throws
`type_error` 302. -/
def getSize (j : Json) : Result Nat :=
  match j with
  | .number_unsigned n => .ok (n % SIZE_MODULUS)
  | .number_integer i => .ok (i % (SIZE_MODULUS : Int)).toNat
  | .number_float m e => floatToSize m e
  | _ => .error (.type_error 302)

/-- Keys that `items()` gives to the elements of an array: the decimal index. -/
def indexed : Nat → List Json → List (Str × Json)
  | _, [] => []
  | i, v :: vs => ((toString i).toList, v) :: indexed (i + 1) vs

/-- Models `j.items()`: the entries of an object, the elements of an array under
their index, nothing for `null`, and for any other value the value itself
under the empty key. -/
def items (j : Json) : List (Str × Json) :=
  match j with
  | .object entries => entries
  | .array elements => indexed 0 elements
  | .null => []
  | v => [([], v)]

end Json

/-! ## Response metadata (lines 122-145) -/

/-- The `skynet::response::subfile` of `siaskynet.hpp`: content type, file name,
length and the named children. -/
inductive subfile where
  | mk (contenttype : Str) (filename : Str) (len : Nat) (subfiles : List (Str × subfile))

namespace subfile

/-- Field `contenttype`. -/
def contenttype : subfile → Str
  | mk c _ _ _ => c

/-- Field `filename`. -/
def filename : subfile → Str
  | mk _ f _ _ => f

/-- Field `len`. -/
def len : subfile → Nat
  | mk _ _ n _ => n

/-- Field `subfiles`. -/
def subfiles : subfile → List (Str × subfile)
  | mk _ _ _ s => s

end subfile

mutual
/-- Source `parse_subfile` (lines 122-135). The recursion follows the value:
`subfilesField` is line 129 and the lookup of line 131, `subfilesLoop` is the
`for` over `items()`, `membersLoop` and `elementsLoop` are its iterations over
an object and over an array. -/
def parse_subfile : Json → Result subfile
  | .object entries => do
    let contenttype ← (← Json.constAt (.object entries) "contenttype".toList).getString
    let len ← (← Json.constAt (.object entries) "len".toList).getSize
    let filename ← (← Json.constAt (.object entries) "filename".toList).getString
    let subfiles ← subfilesField entries
    pure (.mk contenttype filename len subfiles)
  | _ => .error (.type_error 305)
/-- Lines 129-133 on the entries of `value`: no key `subfiles`, no children. -/
def subfilesField : List (Str × Json) → Result (List (Str × subfile))
  | [] => .ok []
  | (k, v) :: rest =>
    if k = "subfiles".toList then subfilesLoop v else subfilesField rest
/-- The loop of lines 131-133 over `value["subfiles"].items()`. A value that is
neither an object, an array nor `null` is its own single item, and
`parse_subfile` throws `type_error` 305 on it. -/
def subfilesLoop : Json → Result (List (Str × subfile))
  | .object entries => membersLoop entries
  | .array elements => elementsLoop 0 elements
  | .null => .ok []
  | _ => .error (.type_error 305)
/-- Iterations over the entries of an object. -/
def membersLoop : List (Str × Json) → Result (List (Str × subfile))
  | [] => .ok []
  | (k, v) :: rest => do
    let child ← parse_subfile v
    let others ← membersLoop rest
    pure ((k, child) :: others)
/-- Iterations over the elements of an array, from index `i`. -/
def elementsLoop : Nat → List Json → Result (List (Str × subfile))
  | _, [] => .ok []
  | i, v :: rest => do
    let child ← parse_subfile v
    let others ← elementsLoop (i + 1) rest
    pure (((toString i).toList, child) :: others)
end

/-! ## `cpr` -/

/-- A `cpr::Response` as far as the code reads it. The header is a
`std::map` with a case-insensitive order, listed as its entries. -/
structure Response where
  status_code : Int
  text : Str
  header : List (Str × Str)

/-- The HTTP verbs used: `cpr::Head`, `cpr::Get`, `cpr::Post`. -/
inductive Method where
  | HEAD
  | GET
  | POST
  deriving DecidableEq, Repr

/-- A `cpr::Part` holding a `cpr::Buffer`: field name, file name, bytes. -/
structure Part where
  name : Str
  filename : Str
  data : List Nat
  deriving DecidableEq, Repr

/-- What is handed to the transport: verb, `cpr::Url`, `cpr::Parameters`,
`cpr::Multipart`. -/
structure Request where
  method : Method
  url : Str
  parameters : List (Str × Str)
  multipart : List Part
  deriving DecidableEq, Repr

/-- Equality of header names under `cpr::CaseInsensitiveCompare`. -/
def sameHeaderName (a b : Str) : Bool :=
  a.map Char.toLower = b.map Char.toLower

/-- Models `header[name]`: the value stored under `name`, and the empty string that
`operator[]` inserts when there is none. -/
def headerAt (header : List (Str × Str)) (name : Str) : Str :=
  match header.find? (fun entry => sameHeaderName entry.1 name) with
  | some entry => entry.2
  | none => []

/-- Conversion of a `char` to `uint8_t`. -/
def charToByte (c : Char) : Nat := c.toNat % 256

/-- Source `parseCprResponse` (lines 137-145). In line 141 the right operand
`std::stoul(...)` is evaluated before `parsed_json["len"]`. -/
def parseCprResponse (grammar : Str → Option Document) (cpr : Response) : Result subfile := do
  let raw_json := headerAt cpr.header "skynet-file-metadata".toList
  let parsed_json ← json_parse grammar raw_json
  let len ← stoul (headerAt cpr.header "content-length".toList)
  let parsed_json ← parsed_json.set "len".toList (.number_unsigned len)
  let parsed_json ← parsed_json.set "contenttype".toList
    (.string (headerAt cpr.header "content-type".toList))
  parse_subfile parsed_json

/-! ## Portal client (lines 17-26, 56-120) -/

/-- The `skynet::portal_options` of `siaskynet.hpp`. -/
structure portal_options where
  url : Str
  uploadPath : Str
  fileFieldname : Str
  directoryFileFieldname : Str
  deriving DecidableEq, Repr

/-- The `skynet::upload` of `siaskynet.hpp`: a file name and its bytes. -/
structure upload where
  filename : Str
  data : List Nat
  deriving DecidableEq, Repr

/-- The `skynet::response` of `siaskynet.hpp`. -/
structure response where
  skylink : Str
  portal : portal_options
  filename : Str
  metadata : subfile
  data : List Nat

/-- Source `skynet::default_options` (lines 17-22). -/
def skynet.default_options : portal_options where
  url := "https://siasky.net".toList
  uploadPath := "/skynet/skyfile".toList
  fileFieldname := "file".toList
  directoryFileFieldname := "files[]".toList

/-- Source `writeToField` (lines 70-86): the request issued and the outcome. -/
def writeToField (grammar : Str → Option Document) (net : Request → Response)
    (files : List upload) (filename url field : Str) : List Request × Result Str :=
  let parameters := [("filename".toList, filename)]
  let uploads := files.map (fun file => Part.mk field file.filename file.data)
  let request := Request.mk .POST url parameters uploads
  let response := net request
  ([request], do
    let json ← json_parse grammar response.text
    let skylink ← (← json.refAt "skylink".toList).getString
    pure ("sia://".toList ++ skylink))

/-- Source `skynet::write(std::vector<uint8_t> const &, std::string const &)`
(lines 56-61), the single-file upload. -/
def skynet.write (grammar : Str → Option Document) (net : Request → Response)
    (options : portal_options) (data : List Nat) (filename : Str) : List Request × Result Str :=
  match (do
    let base ← trimTrailingSlash options.url
    let path ← trimTrailingSlash options.uploadPath
    pure (base ++ path) : Result Str) with
  | .error e => ([], .error e)
  | .ok url => writeToField grammar net [upload.mk filename data] filename url options.fileFieldname

/-- Source `skynet::write(std::vector<skynet::upload> const &, std::string const &)`
(lines 63-68), the multi-file upload. -/
def skynet.write_files (grammar : Str → Option Document) (net : Request → Response)
    (options : portal_options) (files : List upload) (filename : Str) :
    List Request × Result Str :=
  match (do
    let base ← trimTrailingSlash options.url
    let path ← trimTrailingSlash options.uploadPath
    pure (base ++ "/".toList ++ path) : Result Str) with
  | .error e => ([], .error e)
  | .ok url => writeToField grammar net files filename url options.directoryFileFieldname

/-- Source `skynet::query` (lines 88-101): `result.data` stays empty. -/
def skynet.query (grammar : Str → Option Document) (net : Request → Response)
    (options : portal_options) (skylink : Str) : List Request × Result response :=
  match (do
    let base ← trimTrailingSlash options.url
    let link ← trimSiaPrefix skylink
    pure (base ++ "/".toList ++ link) : Result Str) with
  | .error e => ([], .error e)
  | .ok url =>
    let request := Request.mk .HEAD url [] []
    let response := net request
    ([request], do
      let filename ← extractContentDispositionFilename
        (headerAt response.header "content-disposition".toList)
      let metadata ← parseCprResponse grammar response
      pure (sia.response.mk skylink options filename metadata []))

/-- Source `skynet::read` (lines 103-120). The `std::runtime_error` of line 109
is built from the body and read through `what()`. -/
def skynet.read (grammar : Str → Option Document) (net : Request → Response)
    (options : portal_options) (skylink : Str) : List Request × Result response :=
  match (do
    let base ← trimTrailingSlash options.url
    let link ← trimSiaPrefix skylink
    pure (base ++ "/".toList ++ link) : Result Str) with
  | .error e => ([], .error e)
  | .ok url =>
    let request := Request.mk .GET url [("format".toList, "concat".toList)] []
    let response := net request
    ([request],
      if response.status_code ≠ 200 then .error (.runtime_error (cString response.text))
      else do
        let filename ← extractContentDispositionFilename
          (headerAt response.header "content-disposition".toList)
        let metadata ← parseCprResponse grammar response
        pure (sia.response.mk skylink options filename metadata (response.text.map charToByte)))

/-! ## Concrete collaborators for the examples -/

/-- A JSON grammar that recognises the texts used in the examples, and no other. -/
def exampleGrammar (text : Str) : Option Document :=
  if text = "\x7b\"skylink\":\"AAB\"\x7d".toList then
    some (.object [("skylink".toList, .string "AAB".toList)])
  else if text = "\x7b\"filename\":\"f\"\x7d".toList then
    some (.object [("filename".toList, .string "f".toList)])
  else if text = "\x7b\"filename\":\"f\",\"len\":999,\"contenttype\":\"x/y\"\x7d".toList then
    some (.object [("filename".toList, .string "f".toList), ("len".toList, .number_unsigned 999),
      ("contenttype".toList, .string "x/y".toList)])
  else if text = ("\x7b\"filename\":\"d\",\"subfiles\":\x7b" ++
      "\"a\":\x7b\"filename\":\"a\",\"contenttype\":\"t\",\"len\":1\x7d," ++
      "\"b\":\x7b\"filename\":\"b\",\"contenttype\":\"t\",\"len\":2\x7d\x7d\x7d").toList then
    some (.object [("filename".toList, .string "d".toList),
      ("subfiles".toList, .object [
        ("a".toList, .object [("filename".toList, .string "a".toList),
          ("contenttype".toList, .string "t".toList), ("len".toList, .number_unsigned 1)]),
        ("b".toList, .object [("filename".toList, .string "b".toList),
          ("contenttype".toList, .string "t".toList), ("len".toList, .number_unsigned 2)])])])
  else none

/-- A portal that answers every request with the same response. -/
def constantPortal (answer : Response) : Request → Response :=
  fun _ => answer

/-- A response with status 404 and the body `not found`. -/
def notFoundResponse : Response where
  status_code := 404
  text := "not found".toList
  header := []

/-- A response with status 200, the body `hello` and the four headers that
`read` consumes. -/
def helloResponse : Response where
  status_code := 200
  text := "hello".toList
  header :=
    [("Content-Disposition".toList, "inline; filename=\"f\"".toList),
     ("Content-Length".toList, "5".toList),
     ("Content-Type".toList, "text/plain".toList),
     ("Skynet-File-Metadata".toList, "\x7b\"filename\":\"f\"\x7d".toList)]

/-- The response of a portal to a successful upload. -/
def uploadedResponse : Response where
  status_code := 200
  text := "\x7b\"skylink\":\"AAB\"\x7d".toList
  header := []

/-! ## Definitions used to state the properties -/

/-- The loop body of lines 131-133 applied to a list of items: each item is
parsed with `parse_subfile` and kept under its key, in order, and the first
failure ends the loop. -/
def parseEach : List (Str × Json) → Result (List (Str × subfile))
  | [] => .ok []
  | (k, v) :: rest => do
    let child ← parse_subfile v
    let others ← parseEach rest
    pure ((k, child) :: others)

/-- The `subfiles` entries of `value` parsed directly with `parse_subfile`:
nothing when `value` has no `subfiles` field, and otherwise the items of
`value["subfiles"]`, each parsed on its own. -/
def directSubfiles (value : Json) : Result (List (Str × subfile)) :=
  if value.contains "subfiles".toList then
    value.constAt "subfiles".toList >>= fun field => parseEach field.items
  else .ok []

/-- The text begins, after white space and an optional sign, with a decimal digit. -/
def startsWithNumber (s : Str) : Bool :=
  match s.dropWhile isspace with
  | '-' :: rest => (rest.head?.map Char.isDigit).getD false
  | '+' :: rest => (rest.head?.map Char.isDigit).getD false
  | rest => (rest.head?.map Char.isDigit).getD false

/-- The text is a non-empty sequence of decimal digits. -/
def isDigitString (s : Str) : Bool :=
  s ≠ [] && s.all Char.isDigit

/-- The response `helloResponse` with another value of `content-length`. -/
def responseWithLength (length : Str) : Response where
  status_code := 200
  text := "hello".toList
  header :=
    [("Content-Disposition".toList, "inline; filename=\"f\"".toList),
     ("Content-Length".toList, length),
     ("Content-Type".toList, "text/plain".toList),
     ("Skynet-File-Metadata".toList, "\x7b\"filename\":\"f\"\x7d".toList)]

/-- A 200 response whose metadata header is `metadata`, with the given
`content-length` and `content-type`. -/
def metadataResponse (metadata length type : Str) : Response where
  status_code := 200
  text := []
  header :=
    [("Content-Length".toList, length),
     ("Content-Type".toList, type),
     ("Skynet-File-Metadata".toList, metadata)]

/-- The metadata text of a file that declares its own `len` and `contenttype`. -/
def overridingText : Str :=
  "\x7b\"filename\":\"f\",\"len\":999,\"contenttype\":\"x/y\"\x7d".toList

/-- The metadata text of a directory with the two files `a` and `b`. -/
def directoryText : Str :=
  ("\x7b\"filename\":\"d\",\"subfiles\":\x7b" ++
      "\"a\":\x7b\"filename\":\"a\",\"contenttype\":\"t\",\"len\":1\x7d," ++
      "\"b\":\x7b\"filename\":\"b\",\"contenttype\":\"t\",\"len\":2\x7d\x7d\x7d").toList

/-- The names of the `subfiles` members of a JSON text, in the order in which
they are written. -/
def Document.subfileNames : Document → List Str
  | .object members =>
    match members.find? (fun member => member.1 = "subfiles".toList) with
    | some (_, .object children) => children.map Prod.fst
    | _ => []
  | _ => []

/-- The names of the children of a node, in order. -/
def subfile.names (node : subfile) : List Str :=
  node.subfiles.map Prod.fst

/-- The value is a string. -/
def isString : Option Json → Bool
  | some (.string _) => true
  | _ => false

/-- The value is an unsigned integer (a `std::uint64_t`). -/
def isUnsigned : Option Json → Bool
  | some (.number_unsigned n) => n < SIZE_MODULUS
  | _ => false

mutual
/-- The shape of C7: an object with a string `filename`, a string `contenttype`,
an unsigned-integer `len`, and either no `subfiles` field or a `subfiles`
object whose values are of the same shape. -/
def shaped : Json → Bool
  | .object entries =>
    isString (lookup "filename".toList entries) &&
      isString (lookup "contenttype".toList entries) &&
      isUnsigned (lookup "len".toList entries) && shapedField entries
  | _ => false
/-- No `subfiles` field, or one that is an object of shaped values. -/
def shapedField : List (Str × Json) → Bool
  | [] => true
  | (k, v) :: rest => if k = "subfiles".toList then shapedValue v else shapedField rest
/-- An object of shaped values. -/
def shapedValue : Json → Bool
  | .object entries => shapedAll entries
  | _ => false
/-- Every value is shaped. -/
def shapedAll : List (Str × Json) → Bool
  | [] => true
  | (_, v) :: rest => shaped v && shapedAll rest
end

/-- A `len` that is a float can be converted to `size_t`. -/
def lenDefined : Option Json → Bool
  | some (.number_float m e) =>
    match Json.floatToSize m e with
    | .ok _ => true
    | .error _ => false
  | _ => true

mutual
/-- No required field is missing: the value is an object that has `filename`,
`contenttype` and `len` (of any type, a float `len` being in the range of
`size_t`), and its `subfiles` field, when there is one, is an object whose
values are complete in turn. -/
def complete : Json → Bool
  | .object entries =>
    (lookup "contenttype".toList entries).isSome &&
      (lookup "len".toList entries).isSome && lenDefined (lookup "len".toList entries) &&
      (lookup "filename".toList entries).isSome && completeField entries
  | _ => false
/-- No `subfiles` field, or one that is an object of complete values. -/
def completeField : List (Str × Json) → Bool
  | [] => true
  | (k, v) :: rest => if k = "subfiles".toList then completeValue v else completeField rest
/-- An object of complete values. -/
def completeValue : Json → Bool
  | .object entries => completeAll entries
  | _ => false
/-- Every value is complete. -/
def completeAll : List (Str × Json) → Bool
  | [] => true
  | (_, v) :: rest => complete v && completeAll rest
end

/-- The field is present and is not a string. -/
def notString : Option Json → Bool
  | some (.string _) => false
  | some _ => true
  | none => false

/-- The field is present and is a string, `null`, an array or an object. -/
def notNumber : Option Json → Bool
  | some (.string _) => true
  | some .null => true
  | some (.array _) => true
  | some (.object _) => true
  | _ => false

mutual
/-- Some required field has the wrong type, in the value or in a nested
subfile object: `filename` or `contenttype` is not a string, or `len` is a
string, `null`, an array or an object. -/
def illTyped : Json → Bool
  | .object entries =>
    notString (lookup "contenttype".toList entries) ||
      notNumber (lookup "len".toList entries) ||
      notString (lookup "filename".toList entries) || illTypedField entries
  | _ => false
/-- The `subfiles` field is an object with an ill-typed value. -/
def illTypedField : List (Str × Json) → Bool
  | [] => false
  | (k, v) :: rest => if k = "subfiles".toList then illTypedValue v else illTypedField rest
/-- An object with an ill-typed value. -/
def illTypedValue : Json → Bool
  | .object entries => illTypedAny entries
  | _ => false
/-- Some value is ill-typed. -/
def illTypedAny : List (Str × Json) → Bool
  | [] => false
  | (_, v) :: rest => illTyped v || illTypedAny rest
end

/-- A leaf of metadata as a JSON text. -/
def leafDocument (name : Str) (len : Nat) : Document :=
  .object [("filename".toList, .string name), ("contenttype".toList, .string "t".toList),
    ("len".toList, .number_unsigned len)]

/-- A directory whose `subfiles` are written in the given order. -/
def directoryDocument (children : List (Str × Document)) : Document :=
  .object [("filename".toList, .string "d".toList), ("contenttype".toList, .string "dir".toList),
    ("len".toList, .number_unsigned 3), ("subfiles".toList, .object children)]

/-- The outcome is not a `std::runtime_error`. -/
def NotRuntime {α : Type} (r : Result α) : Prop :=
  ∀ what, r ≠ .error (.runtime_error what)

/-- The outcome is a `nlohmann::json::type_error`. -/
def IsTypeError {α : Type} (r : Result α) : Prop :=
  ∃ id, r = .error (.type_error id)

/-- The outcome is a value or a `nlohmann::json::type_error`. -/
def OkOrTypeError {α : Type} (r : Result α) : Prop :=
  (∃ a, r = .ok a) ∨ IsTypeError r

/-- The URL that `query` and `read` request (lines 90 and 105). -/
def readUrl (options : portal_options) (skylink : Str) : Result Str := do
  let base ← trimTrailingSlash options.url
  let link ← trimSiaPrefix skylink
  pure (base ++ "/".toList ++ link)

/-- A response whose body is a JSON object without a `skylink` field. -/
def noSkylinkResponse : Response where
  status_code := 200
  text := "\x7b\"filename\":\"f\"\x7d".toList
  header := []

/-- The names are in strictly ascending order for `std::less<std::string>`:
every name is below every later one. -/
def Ascending (names : List Str) : Prop :=
  names.Pairwise (fun a b => strLt a b = true)

/-- Whether names are in strictly ascending order can be computed. -/
instance decAscending (names : List Str) : Decidable (Ascending names) := by
  unfold Ascending
  infer_instance

/-- The keys that `items()` gives to `n` array elements counted from `i`: the
decimal numbers `i`, `i + 1`, ... -/
def indexNames : Nat → Nat → List Str
  | _, 0 => []
  | i, n + 1 => (toString i).toList :: indexNames (i + 1) n

/-- The names are pairwise distinct and in strictly ascending order. -/
def AscendingDistinct (names : List Str) : Prop :=
  Ascending names ∧ names.Nodup

/-- The child names of one node: distinct and strictly ascending, or the
decimal indices `0`, `1`, ... in order. -/
def NodeNames (names : List Str) : Prop :=
  AscendingDistinct names ∨ names = indexNames 0 names.length

mutual
/-- At every node of the tree the list of child names satisfies `P`. -/
def subfile.EveryNode (P : List Str → Prop) : subfile → Prop
  | .mk _ _ _ children => P (children.map Prod.fst) ∧ subfile.EveryChild P children
/-- Every child is a tree in which every node satisfies `P`. -/
def subfile.EveryChild (P : List Str → Prop) : List (Str × subfile) → Prop
  | [] => True
  | (_, child) :: rest => subfile.EveryNode P child ∧ subfile.EveryChild P rest
end

mutual
/-- Every `subfiles` field that `parse_subfile` iterates in the value is a JSON
object. -/
def objectSubfiles : Json → Bool
  | .object entries => objectSubfilesField entries
  | _ => true
/-- No `subfiles` field, or one that is an object whose values have object
`subfiles` in turn. -/
def objectSubfilesField : List (Str × Json) → Bool
  | [] => true
  | (k, v) :: rest =>
    if k = "subfiles".toList then objectSubfilesValue v else objectSubfilesField rest
/-- An object whose values have object `subfiles`. -/
def objectSubfilesValue : Json → Bool
  | .object entries => objectSubfilesAll entries
  | _ => false
/-- Every value has object `subfiles`. -/
def objectSubfilesAll : List (Str × Json) → Bool
  | [] => true
  | (_, v) :: rest => objectSubfiles v && objectSubfilesAll rest
end

mutual
/-- Every object inside the value lists its entries in strictly ascending
order of name, as a `std::map` does. -/
def Json.Sorted : Json → Prop
  | .object entries => Ascending (entries.map Prod.fst) ∧ Json.EntriesSorted entries
  | .array elements => Json.ElementsSorted elements
  | _ => True
/-- Every value of the entries is sorted. -/
def Json.EntriesSorted : List (Str × Json) → Prop
  | [] => True
  | (_, v) :: rest => Json.Sorted v ∧ Json.EntriesSorted rest
/-- Every element is sorted. -/
def Json.ElementsSorted : List Json → Prop
  | [] => True
  | v :: rest => Json.Sorted v ∧ Json.ElementsSorted rest
end

/-- A directory whose `subfiles` is an array of `n` leaves. -/
def arrayDirectoryDocument (n : Nat) : Document :=
  .object [("filename".toList, .string "d".toList), ("contenttype".toList, .string "dir".toList),
    ("len".toList, .number_unsigned 3),
    ("subfiles".toList, .array (List.replicate n (leafDocument "x".toList 1)))]

/-! ## Lemmas -/

/-! ### The library model on concrete inputs -/

/-- What `std::stoul` does with digits, trailing text, white space, signs,
text without a number and a value that does not fit. -/
theorem stoul_examples :
    stoul "42".toList = .ok 42 ∧ stoul "12abc".toList = .ok 12 ∧ stoul " 7".toList = .ok 7 ∧
      stoul "+7".toList = .ok 7 ∧ stoul "-1".toList = .ok (2 ^ 64 - 1) ∧
      stoul "abc".toList = .error .invalid_argument ∧ stoul [] = .error .invalid_argument ∧
      stoul "-".toList = .error .invalid_argument ∧
      stoul "18446744073709551615".toList = .ok (2 ^ 64 - 1) ∧
      stoul "18446744073709551616".toList = .error .out_of_range := by
  decide

/-- The value built from a text keeps the entries of an object ordered by name,
and the last value of a repeated name. -/
theorem dom_examples :
    (Document.object [("b".toList, .number_unsigned 1), ("a".toList, .number_unsigned 2),
        ("b".toList, .number_unsigned 3)]).dom.items.map Prod.fst = ["a".toList, "b".toList] ∧
      (Document.object [("b".toList, .number_unsigned 1), ("a".toList, .number_unsigned 2),
        ("b".toList, .number_unsigned 3)]).dom.contains "b".toList = true ∧
      ((Document.object [("b".toList, .number_unsigned 1), ("a".toList, .number_unsigned 2),
        ("b".toList, .number_unsigned 3)]).dom.constAt "b".toList >>= Json.getSize) = .ok 3 := by
  refine ⟨by decide, by rfl, by rfl⟩

/-- What `items()` gives for an array, for `null` and for a number. -/
theorem items_examples :
    (Json.array [.null, .boolean true]).items.map Prod.fst = ["0".toList, "1".toList] ∧
      Json.null.items.map Prod.fst = [] ∧
      (Json.number_unsigned 5).items.map Prod.fst = [[]] := by
  decide

/-- The conversions of `get<size_t>()`: an unsigned number, a negative number,
the doubles 5.5 and -0.5, and a string. -/
theorem getSize_examples :
    (Json.number_unsigned 5).getSize = .ok 5 ∧
      (Json.number_integer (-1)).getSize = .ok (2 ^ 64 - 1) ∧
      (Json.number_float 11 (-1)).getSize = .ok 5 ∧
      (Json.number_float (-1) (-1)).getSize = .ok 0 ∧
      (Json.number_float (-3) 0).getSize = .error .undefined ∧
      (Json.string "5".toList).getSize = .error (.type_error 302) ∧
      Json.null.getSize = .error (.type_error 302) := by
  decide

/-- Header names are compared without regard to case, and a header that is
absent reads as the empty string. -/
theorem headerAt_examples :
    headerAt [("Content-Length".toList, "5".toList)] "content-length".toList = "5".toList ∧
      headerAt [("Content-Length".toList, "5".toList)] "content-type".toList = [] := by
  decide

theorem findFrom_some (pat : Str) : ∀ (t : Str) (i j : Nat), findFrom pat t i = some j →
    ∃ k, j = i + k ∧ k ≤ t.length ∧ pat <+: t.drop k ∧ ∀ k', k' < k → ¬ pat <+: t.drop k'
  | [], i, j, h => by
    unfold findFrom at h
    split at h
    · rename_i hp
      refine ⟨0, ?_, by simp, ?_, by simp⟩
      · simpa using (Option.some.inj h).symm
      · simpa using List.isPrefixOf_iff_prefix.mp hp
    · cases h
  | c :: t, i, j, h => by
    unfold findFrom at h
    split at h
    · rename_i hp
      refine ⟨0, ?_, by simp, ?_, by simp⟩
      · simpa using (Option.some.inj h).symm
      · simpa using List.isPrefixOf_iff_prefix.mp hp
    · rename_i hp
      obtain ⟨k, hj, hk, hpre, hmin⟩ := findFrom_some pat t (i + 1) j h
      refine ⟨k + 1, by omega, by simpa using hk, by simpa using hpre, ?_⟩
      intro k' hk'
      cases k' with
      | zero =>
        intro hpre0
        exact hp (List.isPrefixOf_iff_prefix.mpr (by simpa using hpre0))
      | succ n => simpa using hmin n (by omega)

theorem findFrom_none (pat : Str) : ∀ (t : Str) (i : Nat), findFrom pat t i = none →
    ∀ k, k ≤ t.length → ¬ pat <+: t.drop k
  | [], i, h => by
    unfold findFrom at h
    split at h
    · cases h
    · rename_i hp
      intro k _ hpre
      exact hp (List.isPrefixOf_iff_prefix.mpr (by simpa using hpre))
  | c :: t, i, h => by
    unfold findFrom at h
    split at h
    · cases h
    · rename_i hp
      intro k hk
      cases k with
      | zero =>
        intro hpre0
        exact hp (List.isPrefixOf_iff_prefix.mpr (by simpa using hpre0))
      | succ n =>
        have := findFrom_none pat t (i + 1) h n (by simpa using hk)
        simpa using this

theorem find_some (s pat : Str) (pos j : Nat) (h : find s pat pos = some j) :
    pos ≤ j ∧ j ≤ s.length ∧ pat <+: s.drop j ∧
      ∀ k, pos ≤ k → k < j → ¬ pat <+: s.drop k := by
  unfold find at h
  split at h
  · cases h
  · rename_i hlen
    obtain ⟨k, hj, hk, hpre, hmin⟩ := findFrom_some pat (s.drop pos) pos j h
    simp only [List.length_drop, List.drop_drop] at hk hpre hmin
    subst hj
    refine ⟨by omega, by omega, ?_, ?_⟩
    · simpa [Nat.add_comm] using hpre
    · intro k' h1 h2
      have := hmin (k' - pos) (by omega)
      have e : pos + (k' - pos) = k' := by omega
      have e' : (k' - pos) + pos = k' := by omega
      simpa [e, e'] using this

theorem find_none (s pat : Str) (pos : Nat) (h : find s pat pos = none) (hpos : pos ≤ s.length) :
    ∀ k, pos ≤ k → k ≤ s.length → ¬ pat <+: s.drop k := by
  unfold find at h
  split at h
  · omega
  · intro k h1 h2
    have := findFrom_none pat (s.drop pos) pos h (k - pos) (by simp; omega)
    have e : pos + (k - pos) = k := by omega
    have e' : (k - pos) + pos = k := by omega
    simpa [List.drop_drop, e, e'] using this

theorem find_eq_some (s pat : Str) (pos j : Nat) (h1 : pos ≤ j) (h2 : j ≤ s.length)
    (hpre : pat <+: s.drop j) (hmin : ∀ k, pos ≤ k → k < j → ¬ pat <+: s.drop k) :
    find s pat pos = some j := by
  cases hf : find s pat pos with
  | none => exact absurd hpre (find_none s pat pos hf (by omega) j h1 h2)
  | some i =>
    obtain ⟨a, b, c, d⟩ := find_some s pat pos i hf
    have h3 : ¬ i < j := fun hlt => hmin i a hlt c
    have h4 : ¬ j < i := fun hlt => d j h1 hlt hpre
    have : i = j := by omega
    rw [this]

theorem find_eq_none (s pat : Str) (pos : Nat)
    (hmin : ∀ k, pos ≤ k → k ≤ s.length → ¬ pat <+: s.drop k) :
    find s pat pos = none := by
  cases hf : find s pat pos with
  | none => rfl
  | some i =>
    obtain ⟨a, b, c, _⟩ := find_some s pat pos i hf
    exact absurd c (hmin i a b)

/-- A character found by `findChar` lies inside the string. -/
theorem findChar_some (s : Str) (c : Char) (pos e : Nat) (h : findChar s c pos = some e) :
    pos ≤ e ∧ e < s.length := by
  obtain ⟨a, b, hp, _⟩ := find_some s [c] pos e h
  have := hp.length_le
  simp at this
  omega

theorem range_ok (s : Str) (first last : Nat) (h1 : first ≤ last) (h2 : last ≤ s.length) :
    range s first last = .ok ((s.drop first).take (last - first)) := by
  simp [range, h1, h2]

/-- The parser of the `Content-Disposition` header returns on every input. -/
theorem extractContentDispositionFilename_total (h : Str) :
    ∃ v, extractContentDispositionFilename h = .ok v := by
  unfold extractContentDispositionFilename
  cases hf : find h "filename=".toList 0 with
  | none => exact ⟨[], rfl⟩
  | some found =>
    obtain ⟨_, _, hp, _⟩ := find_some h _ 0 found hf
    have hlen := hp.length_le
    simp only [List.length_drop] at hlen
    have h9 : "filename=".toList.length = 9 := by decide
    rw [h9] at hlen
    simp only []
    by_cases hlt : found + 9 < h.length
    · have hc : charAt h (found + 9) = .ok (h.get ⟨found + 9, hlt⟩) := by
        simp [charAt, hlt]
      simp only [hc, bind, Except.bind]
      generalize hq : (decide (h.get ⟨found + 9, hlt⟩ = '\'') || decide (h.get ⟨found + 9, hlt⟩ = '"')) = quoted
      cases hfc : findChar h (if quoted = true then h.get ⟨found + 9, hlt⟩ else ';')
          (if quoted = true then found + 9 + 1 else found + 9) with
      | none =>
        dsimp only
        refine ⟨_, range_ok _ _ _ ?_ le_rfl⟩
        split <;> omega
      | some e =>
        obtain ⟨a, b⟩ := findChar_some _ _ _ _ hfc
        dsimp only
        exact ⟨_, range_ok _ _ _ a (by omega)⟩
    · have heq : found + 9 = h.length := by omega
      have hc : charAt h (found + 9) = .ok (Char.ofNat 0) := by
        simp [charAt, heq]
      simp only [hc, bind, Except.bind]
      have hq : (decide (Char.ofNat 0 = '\'') || decide (Char.ofNat 0 = '"')) = false := by decide
      simp only [hq, Bool.false_eq_true, if_false]
      cases hfc : findChar h ';' (found + 9) with
      | none =>
        dsimp only
        exact ⟨_, range_ok _ _ _ (by omega) le_rfl⟩
      | some e =>
        obtain ⟨a, b⟩ := findChar_some _ _ _ _ hfc
        dsimp only
        exact ⟨_, range_ok _ _ _ a (by omega)⟩

theorem compareStr_eq_zero : ∀ (a b : Str), compareStr a b = 0 ↔ a = b
  | [], [] => by simp [compareStr]
  | [], _ :: _ => by simp [compareStr]
  | _ :: _, [] => by simp [compareStr]
  | a :: as, b :: bs => by
    unfold compareStr
    by_cases h1 : a.toNat < b.toNat
    · have : a ≠ b := fun h => by subst h; omega
      simp [h1, this]
    · by_cases h2 : b.toNat < a.toNat
      · have : a ≠ b := fun h => by subst h; omega
        simp [h1, h2, this]
      · have hab : a = b := Char.ext (UInt32.ext (by
          have : a.toNat = b.toNat := by omega
          simpa [Char.toNat, UInt32.toNat] using this))
        simp [h1, h2, hab, compareStr_eq_zero as bs]

/-- The result of `trimSiaPrefix` in closed form: it never throws. -/
theorem trimSiaPrefix_eq (s : Str) :
    trimSiaPrefix s = .ok (if "sia://".toList <+: s then s.drop 6 else s) := by
  have h6 : "sia://".toList.length = 6 := by decide
  unfold trimSiaPrefix compare
  generalize "sia://".toList = pat at h6 ⊢
  simp only [Nat.not_lt_zero, if_false, List.drop_zero, bind, Except.bind]
  by_cases hp : pat <+: s
  · have ht : s.take 6 = pat := by
      have := List.prefix_iff_eq_take.mp hp
      rw [h6] at this
      exact this.symm
    have hlen : ¬ s.length < 6 := by
      have := hp.length_le
      rw [h6] at this
      omega
    have hc : 0 = compareStr (List.take 6 s) pat :=
      ((compareStr_eq_zero _ _).mpr ht).symm
    rw [if_pos hc, if_pos hp, substr, if_neg hlen]
  · have hc : ¬ (0 = compareStr (List.take 6 s) pat) := by
      intro h0
      have ht := (compareStr_eq_zero _ _).mp h0.symm
      apply hp
      rw [List.prefix_iff_eq_take, h6]
      exact ht.symm
    rw [if_neg hc, if_neg hp]
    rfl

theorem trimSiaPrefix_append (x : Str) : trimSiaPrefix ("sia://".toList ++ x) = .ok x := by
  rw [trimSiaPrefix_eq]
  have hp : "sia://".toList <+: "sia://".toList ++ x := List.prefix_append _ _
  rw [if_pos hp]
  rfl

theorem trimSiaPrefix_bare (x : Str) (h : ¬ "sia://".toList <+: x) : trimSiaPrefix x = .ok x := by
  rw [trimSiaPrefix_eq, if_neg h]

theorem notRuntime_ok {α : Type} (a : α) : NotRuntime (.ok a : Result α) := by
  intro w h; cases h

theorem notRuntime_bind {α β : Type} {x : Result α} {f : α → Result β}
    (hx : NotRuntime x) (hf : ∀ a, NotRuntime (f a)) : NotRuntime (x >>= f) := by
  cases x with
  | error e => intro w h; exact hx w (by simpa [bind, Except.bind] using h)
  | ok a => exact hf a

theorem notRuntime_getString (j : Json) : NotRuntime j.getString := by
  intro w h; cases j <;> simp [Json.getString] at h

theorem notRuntime_getSize (j : Json) : NotRuntime j.getSize := by
  intro w h
  cases j with
  | number_float m e =>
    simp only [Json.getSize, Json.floatToSize] at h
    split_ifs at h <;> cases h
  | _ => simp [Json.getSize] at h

theorem notRuntime_constAt (j : Json) (key : Str) : NotRuntime (j.constAt key) := by
  intro w h
  cases j <;> simp [Json.constAt] at h
  split at h <;> cases h

theorem notRuntime_set (j : Json) (key : Str) (v : Json) : NotRuntime (j.set key v) := by
  intro w h; cases j <;> simp [Json.set] at h

theorem notRuntime_stoul (s : Str) : NotRuntime (stoul s) := by
  intro w h
  unfold stoul at h
  simp only [] at h
  split at h
  · cases h
  · split at h
    · cases h
    · split at h <;> cases h

theorem notRuntime_json_parse (grammar : Str → Option Document) (s : Str) :
    NotRuntime (json_parse grammar s) := by
  intro w h
  unfold json_parse at h
  split at h <;> cases h

mutual
theorem notRuntime_parse_subfile : ∀ v : Json, NotRuntime (parse_subfile v)
  | .object entries => by
    unfold parse_subfile
    refine notRuntime_bind (notRuntime_constAt _ _) fun a => ?_
    refine notRuntime_bind (notRuntime_getString _) fun ct => ?_
    refine notRuntime_bind (notRuntime_constAt _ _) fun b => ?_
    refine notRuntime_bind (notRuntime_getSize _) fun n => ?_
    refine notRuntime_bind (notRuntime_constAt _ _) fun c => ?_
    refine notRuntime_bind (notRuntime_getString _) fun f => ?_
    refine notRuntime_bind (notRuntime_subfilesField entries) fun s => ?_
    exact notRuntime_ok _
  | .null => by intro w h; simp [parse_subfile] at h
  | .boolean _ => by intro w h; simp [parse_subfile] at h
  | .number_integer _ => by intro w h; simp [parse_subfile] at h
  | .number_unsigned _ => by intro w h; simp [parse_subfile] at h
  | .number_float _ _ => by intro w h; simp [parse_subfile] at h
  | .string _ => by intro w h; simp [parse_subfile] at h
  | .array _ => by intro w h; simp [parse_subfile] at h
theorem notRuntime_subfilesField : ∀ entries : List (Str × Json), NotRuntime (subfilesField entries)
  | [] => by unfold subfilesField; exact notRuntime_ok _
  | (k, v) :: rest => by
    unfold subfilesField
    split
    · exact notRuntime_subfilesLoop v
    · exact notRuntime_subfilesField rest
theorem notRuntime_subfilesLoop : ∀ v : Json, NotRuntime (subfilesLoop v)
  | .object entries => by unfold subfilesLoop; exact notRuntime_membersLoop entries
  | .array elements => by unfold subfilesLoop; exact notRuntime_elementsLoop 0 elements
  | .null => by unfold subfilesLoop; exact notRuntime_ok _
  | .boolean _ => by intro w h; simp [subfilesLoop] at h
  | .number_integer _ => by intro w h; simp [subfilesLoop] at h
  | .number_unsigned _ => by intro w h; simp [subfilesLoop] at h
  | .number_float _ _ => by intro w h; simp [subfilesLoop] at h
  | .string _ => by intro w h; simp [subfilesLoop] at h
theorem notRuntime_membersLoop : ∀ entries : List (Str × Json), NotRuntime (membersLoop entries)
  | [] => by unfold membersLoop; exact notRuntime_ok _
  | (k, v) :: rest => by
    unfold membersLoop
    refine notRuntime_bind (notRuntime_parse_subfile v) fun a => ?_
    refine notRuntime_bind (notRuntime_membersLoop rest) fun b => ?_
    exact notRuntime_ok _
theorem notRuntime_elementsLoop : ∀ (i : Nat) (elements : List Json),
    NotRuntime (elementsLoop i elements)
  | _, [] => by unfold elementsLoop; exact notRuntime_ok _
  | i, v :: rest => by
    unfold elementsLoop
    refine notRuntime_bind (notRuntime_parse_subfile v) fun a => ?_
    refine notRuntime_bind (notRuntime_elementsLoop (i + 1) rest) fun b => ?_
    exact notRuntime_ok _
end

theorem notRuntime_parseCprResponse (grammar : Str → Option Document) (cpr : Response) :
    NotRuntime (parseCprResponse grammar cpr) := by
  unfold parseCprResponse
  refine notRuntime_bind (notRuntime_json_parse _ _) fun a => ?_
  refine notRuntime_bind (notRuntime_stoul _) fun n => ?_
  refine notRuntime_bind (notRuntime_set _ _ _) fun b => ?_
  refine notRuntime_bind (notRuntime_set _ _ _) fun c => ?_
  exact notRuntime_parse_subfile _

theorem query_sent (grammar : Str → Option Document) (net : Request → Response)
    (options : portal_options) (skylink : Str) :
    (skynet.query grammar net options skylink).1 =
      match readUrl options skylink with
      | .error _ => []
      | .ok url => [Request.mk .HEAD url [] []] := by
  unfold skynet.query readUrl
  split <;> rename_i h <;> simp only [h]

theorem read_sent (grammar : Str → Option Document) (net : Request → Response)
    (options : portal_options) (skylink : Str) :
    (skynet.read grammar net options skylink).1 =
      match readUrl options skylink with
      | .error _ => []
      | .ok url => [Request.mk .GET url [("format".toList, "concat".toList)] []] := by
  unfold skynet.read readUrl
  split <;> rename_i h <;> simp only [h]

theorem read_outcome (grammar : Str → Option Document) (net : Request → Response)
    (options : portal_options) (skylink : Str) (request : Request)
    (hsent : (skynet.read grammar net options skylink).1 = [request]) :
    (skynet.read grammar net options skylink).2 =
      (if (net request).status_code ≠ 200 then
        .error (.runtime_error (cString (net request).text))
      else
        (extractContentDispositionFilename
          (headerAt (net request).header "content-disposition".toList)) >>= fun filename =>
        parseCprResponse grammar (net request) >>= fun metadata =>
        pure (sia.response.mk skylink options filename metadata
          ((net request).text.map charToByte))) := by
  unfold skynet.read at hsent ⊢
  split at hsent
  · cases hsent
  · rename_i url h
    simp only [List.cons.injEq, and_true] at hsent
    simp only [h, hsent]

theorem readUrl_prefix (options : portal_options) (x : Str) (h : ¬ "sia://".toList <+: x) :
    readUrl options ("sia://".toList ++ x) = readUrl options x := by
  unfold readUrl
  rw [trimSiaPrefix_append, trimSiaPrefix_bare x h]

theorem bind_eq_ok {α β : Type} {x : Result α} {f : α → Result β} {b : β}
    (h : (x >>= f) = .ok b) : ∃ a, x = .ok a ∧ f a = .ok b := by
  cases x with
  | error e => cases h
  | ok a => exact ⟨a, rfl, h⟩

theorem lookup_assign_same (key : Str) (value : Json) :
    ∀ entries : List (Str × Json), lookup key (assign key value entries) = some value
  | [] => by simp [assign, lookup]
  | (k, v) :: rest => by
    unfold assign
    by_cases h1 : k = key
    · simp [h1, lookup]
    · by_cases h2 : strLt key k = true
      · simp [h1, h2, lookup]
      · simp [h1, h2, lookup, lookup_assign_same key value rest]

theorem lookup_assign_other (key other : Str) (value : Json) (h : key ≠ other) :
    ∀ entries : List (Str × Json), lookup other (assign key value entries) = lookup other entries
  | [] => by simp [assign, lookup, h]
  | (k, v) :: rest => by
    unfold assign
    by_cases h1 : k = key
    · subst h1
      simp [lookup, h]
    · by_cases h2 : strLt key k = true
      · simp [h1, h2, lookup, h]
      · simp [h1, h2, lookup, lookup_assign_other key other value h rest]

theorem subfilesField_assign (key : Str) (value : Json) (h : key ≠ "subfiles".toList) :
    ∀ entries : List (Str × Json),
      subfilesField (assign key value entries) = subfilesField entries
  | [] => by simp only [assign, subfilesField, if_neg h]
  | (k, v) :: rest => by
    unfold assign
    by_cases h1 : k = key
    · subst h1
      simp only [if_true, subfilesField, if_neg h]
    · by_cases h2 : strLt key k = true
      · simp only [if_neg h1, h2, if_true]
        rw [subfilesField, if_neg h]
      · simp only [if_neg h1, h2]
        simp only [subfilesField, subfilesField_assign key value h rest]

theorem membersLoop_eq : ∀ entries : List (Str × Json), membersLoop entries = parseEach entries
  | [] => by simp only [membersLoop, parseEach]
  | (k, v) :: rest => by simp only [membersLoop, parseEach, membersLoop_eq rest]

theorem elementsLoop_eq : ∀ (i : Nat) (elements : List Json),
    elementsLoop i elements = parseEach (Json.indexed i elements)
  | _, [] => by simp only [elementsLoop, parseEach, Json.indexed]
  | i, v :: rest => by
    simp only [elementsLoop, parseEach, Json.indexed, elementsLoop_eq (i + 1) rest]

theorem subfilesLoop_eq (v : Json) : subfilesLoop v = parseEach v.items := by
  cases v with
  | object entries => simp only [subfilesLoop, Json.items, membersLoop_eq]
  | array elements => simp only [subfilesLoop, Json.items, elementsLoop_eq]
  | null => simp only [subfilesLoop, Json.items, parseEach]
  | _ => simp only [subfilesLoop, Json.items, parseEach, parse_subfile, bind, Except.bind]

theorem subfilesField_eq : ∀ entries : List (Str × Json),
    subfilesField entries = directSubfiles (.object entries)
  | [] => by simp [subfilesField, directSubfiles, Json.contains, lookup]
  | (k, v) :: rest => by
    have ih := subfilesField_eq rest
    unfold subfilesField
    by_cases hk : k = "subfiles".toList
    · rw [if_pos hk, subfilesLoop_eq]
      simp only [directSubfiles, Json.contains, lookup, if_pos hk, Option.isSome_some, if_true,
        Json.constAt, bind, Except.bind]
    · rw [if_neg hk, ih]
      simp only [directSubfiles, Json.contains, lookup, if_neg hk, Json.constAt]

/-- The definition of `parse_subfile` written as the source is (lines 122-135). -/
theorem parse_subfile_eq (value : Json) :
    parse_subfile value =
      (value.constAt "contenttype".toList >>= fun a => a.getString >>= fun contenttype =>
        value.constAt "len".toList >>= fun b => b.getSize >>= fun len =>
        value.constAt "filename".toList >>= fun c => c.getString >>= fun filename =>
        if ¬ value.contains "subfiles".toList then
          pure (subfile.mk contenttype filename len [])
        else
          value.constAt "subfiles".toList >>= fun field =>
          parseEach field.items >>= fun subfiles =>
          pure (subfile.mk contenttype filename len subfiles)) := by
  cases value with
  | object entries =>
    simp only [parse_subfile, subfilesField_eq, directSubfiles]
    congr 1; funext a; congr 1; funext ct; congr 1; funext b; congr 1; funext n
    congr 1; funext c; congr 1; funext f
    by_cases hc : (Json.object entries).contains "subfiles".toList = true
    · simp only [hc, if_true, not_true_eq_false, if_false]
      cases (Json.object entries).constAt "subfiles".toList <;> rfl
    · simp only [hc, if_false, not_false_eq_true, if_true]
      rfl
  | _ => rfl

theorem isspace_of_isDigit (c : Char) (h : c.isDigit = true) : isspace c = false := by
  simp only [Char.isDigit, Bool.and_eq_true, decide_eq_true_eq] at h
  have h48 : 48 ≤ c.val.toNat := by
    have := h.1
    exact this
  simp only [isspace, Bool.or_eq_false_iff, decide_eq_false_iff_not]
  refine ⟨⟨⟨⟨⟨?_, ?_⟩, ?_⟩, ?_⟩, ?_⟩, ?_⟩ <;> intro hc <;> subst hc <;> revert h48 <;> decide

theorem readSign_digit (c : Char) (t : Str) (hc : c.isDigit = true) :
    readSign (c :: t) = (false, c :: t) := by
  have hminus : c ≠ '-' := fun h => by subst h; revert hc; decide
  have hplus : c ≠ '+' := fun h => by subst h; revert hc; decide
  unfold readSign
  split
  · rename_i heq; exact absurd (List.cons.inj heq).1 hminus
  · rename_i heq; exact absurd (List.cons.inj heq).1 hplus
  · rfl

theorem stoul_digits (digits : Str) (hne : digits ≠ []) (hall : ∀ c ∈ digits, c.isDigit = true)
    (hval : digitsValue digits < SIZE_MODULUS) : stoul digits = .ok (digitsValue digits) := by
  cases digits with
  | nil => exact absurd rfl hne
  | cons c t =>
    have hc : c.isDigit = true := hall c (List.mem_cons_self _ _)
    have hsp : isspace c = false := isspace_of_isDigit c hc
    have hdrop : (c :: t).dropWhile isspace = c :: t := by
      simp [List.dropWhile, hsp]
    have htake : (c :: t).takeWhile Char.isDigit = c :: t :=
      List.takeWhile_eq_self_iff.mpr hall
    unfold stoul
    simp only [hdrop, readSign_digit c t hc, htake]
    rw [if_neg (by simp), if_neg (by omega)]
    simp

theorem takeWhile_isDigit_nil (t : Str) (h : (t.head?.map Char.isDigit).getD false = false) :
    t.takeWhile Char.isDigit = [] := by
  cases t with
  | nil => rfl
  | cons c u =>
    have hc : c.isDigit = false := by simpa using h
    simp [List.takeWhile, hc]

theorem stoul_invalid (s : Str) (h : startsWithNumber s = false) :
    stoul s = .error .invalid_argument := by
  unfold startsWithNumber at h
  unfold stoul
  generalize s.dropWhile isspace = r at h ⊢
  have ht : (readSign r).2.takeWhile Char.isDigit = [] := by
    unfold readSign
    split <;> split at h
    all_goals first
      | exact takeWhile_isDigit_nil _ h
      | (rename_i heq; cases heq; exact takeWhile_isDigit_nil _ h)
      | (rename_i heq; cases heq)
      | (rename_i a b; first | exact (a _ rfl).elim | exact (b _ rfl).elim)
  simp only [ht, if_true]

theorem charAt_append (a b : Str) (c : Char) : charAt (a ++ c :: b) a.length = .ok c := by
  have hlt : a.length < (a ++ c :: b).length := by simp
  unfold charAt
  rw [dif_pos hlt]
  congr 1
  simp only [List.get_eq_getElem]
  rw [List.getElem_append_right (by omega)]
  simp

theorem singleton_prefix_iff (q : Char) (s : Str) : [q] <+: s ↔ s.head? = some q := by
  cases s with
  | nil => simp
  | cons c t =>
    simp only [List.head?_cons, Option.some.injEq]
    constructor
    · intro h
      rcases h with ⟨u, hu⟩
      simp only [List.singleton_append, List.cons.injEq] at hu
      exact hu.1.symm
    · intro h
      subst h
      exact ⟨t, rfl⟩

theorem not_prefix_drop_of_not_mem (q : Char) (v rest : Str) (hv : q ∉ v) (k : Nat)
    (hk : k < v.length) : ¬ [q] <+: (v ++ rest).drop k := by
  rw [singleton_prefix_iff]
  intro h
  apply hv
  have hd : (v ++ rest).drop k = v.drop k ++ rest := List.drop_append_of_le_length (by omega)
  rw [hd] at h
  have hne : v.drop k ≠ [] := by
    intro h0
    have := congrArg List.length h0
    simp at this
    omega
  cases hvk : v.drop k with
  | nil => exact absurd hvk hne
  | cons c t =>
    rw [hvk] at h
    simp only [List.cons_append, List.head?_cons, Option.some.injEq] at h
    subst h
    exact List.mem_of_mem_drop (hvk ▸ List.mem_cons_self _ _)

theorem findChar_closing (a v r : Str) (q : Char) (hv : q ∉ v) :
    findChar (a ++ v ++ q :: r) q a.length = some (a.length + v.length) := by
  unfold findChar
  apply find_eq_some
  · omega
  · simp
  · have : (a ++ v ++ q :: r).drop (a.length + v.length) = q :: r := by
      have h := List.drop_left (a ++ v) (q :: r)
      simp only [List.length_append] at h
      exact h
    rw [this]
    exact ⟨r, rfl⟩
  · intro k h1 h2
    have hd : (a ++ v ++ q :: r).drop k = (v ++ q :: r).drop (k - a.length) := by
      rw [List.append_assoc, List.drop_append_eq_append_drop]
      have : List.drop k a = [] := List.drop_of_length_le h1
      rw [this]
      rfl
    rw [hd]
    exact not_prefix_drop_of_not_mem q v (q :: r) hv _ (by omega)

theorem findChar_unclosed (a v : Str) (q : Char) (hv : q ∉ v) :
    findChar (a ++ v) q a.length = none := by
  unfold findChar
  apply find_eq_none
  intro k h1 h2
  have hd : (a ++ v).drop k = v.drop (k - a.length) := by
    rw [List.drop_append_eq_append_drop]
    have : List.drop k a = [] := List.drop_of_length_le h1
    rw [this]
    rfl
  rw [hd, singleton_prefix_iff]
  intro h
  apply hv
  cases hvk : v.drop (k - a.length) with
  | nil => rw [hvk] at h; cases h
  | cons c t =>
    rw [hvk] at h
    simp only [List.head?_cons, Option.some.injEq] at h
    subst h
    exact List.mem_of_mem_drop (hvk ▸ List.mem_cons_self _ _)

theorem find_first (pre pat tail : Str)
    (hfirst : ∀ k, k < pre.length → ¬ pat <+: (pre ++ pat).drop k) :
    find (pre ++ pat ++ tail) pat 0 = some pre.length := by
  apply find_eq_some
  · omega
  · simp
  · have : (pre ++ pat ++ tail).drop pre.length = pat ++ tail := by
      rw [List.append_assoc]
      exact List.drop_left pre (pat ++ tail)
    rw [this]
    exact List.prefix_append _ _
  · intro k _ hk hp
    apply hfirst k hk
    have hd : (pre ++ pat ++ tail).drop k = (pre ++ pat).drop k ++ tail :=
      List.drop_append_of_le_length (by simp; omega)
    rw [hd] at hp
    refine List.prefix_of_prefix_length_le hp (List.prefix_append _ _) ?_
    simp
    omega

theorem isString_some {x : Option Json} (h : isString x = true) : ∃ s, x = some (.string s) := by
  unfold isString at h
  split at h
  · exact ⟨_, rfl⟩
  · cases h

theorem isUnsigned_some {x : Option Json} (h : isUnsigned x = true) :
    ∃ n, x = some (.number_unsigned n) ∧ n < SIZE_MODULUS := by
  unfold isUnsigned at h
  split at h
  · exact ⟨_, rfl, by simpa using h⟩
  · cases h

/-- The fields of a node whose three required fields have the right types. -/
theorem parse_subfile_fields (entries : List (Str × Json)) (f c : Str) (n : Nat)
    (hf : lookup "filename".toList entries = some (.string f))
    (hc : lookup "contenttype".toList entries = some (.string c))
    (hn : lookup "len".toList entries = some (.number_unsigned n))
    (hlt : n < SIZE_MODULUS) :
    parse_subfile (.object entries) =
      (subfilesField entries >>= fun subs => pure (subfile.mk c f n subs)) := by
  have h4 : n % SIZE_MODULUS = n := Nat.mod_eq_of_lt hlt
  simp only [parse_subfile, Json.constAt, hf, hc, hn, Json.getString, Json.getSize, h4,
    bind, Except.bind]

mutual
theorem shaped_ok : ∀ v : Json, shaped v = true → ∃ t, parse_subfile v = .ok t
  | .object entries, h => by
    simp only [shaped, Bool.and_eq_true] at h
    obtain ⟨⟨⟨h1, h2⟩, h3⟩, h4⟩ := h
    obtain ⟨f, hf⟩ := isString_some h1
    obtain ⟨c, hc⟩ := isString_some h2
    obtain ⟨n, hn, hlt⟩ := isUnsigned_some h3
    obtain ⟨subs, hs⟩ := shapedField_ok entries h4
    exact ⟨_, by rw [parse_subfile_fields entries f c n hf hc hn hlt, hs]; rfl⟩
  | .null, h => by simp [shaped] at h
  | .boolean _, h => by simp [shaped] at h
  | .number_integer _, h => by simp [shaped] at h
  | .number_unsigned _, h => by simp [shaped] at h
  | .number_float _ _, h => by simp [shaped] at h
  | .string _, h => by simp [shaped] at h
  | .array _, h => by simp [shaped] at h
theorem shapedField_ok : ∀ entries : List (Str × Json), shapedField entries = true →
    ∃ subs, subfilesField entries = .ok subs
  | [], _ => ⟨[], rfl⟩
  | (k, v) :: rest, h => by
    unfold shapedField at h
    unfold subfilesField
    split at h
    · rename_i hk
      rw [if_pos hk]
      exact shapedValue_ok v h
    · rename_i hk
      rw [if_neg hk]
      exact shapedField_ok rest h
theorem shapedValue_ok : ∀ v : Json, shapedValue v = true → ∃ subs, subfilesLoop v = .ok subs
  | .object entries, h => by
    unfold shapedValue at h
    unfold subfilesLoop
    exact shapedAll_ok entries h
  | .null, h => by simp [shapedValue] at h
  | .boolean _, h => by simp [shapedValue] at h
  | .number_integer _, h => by simp [shapedValue] at h
  | .number_unsigned _, h => by simp [shapedValue] at h
  | .number_float _ _, h => by simp [shapedValue] at h
  | .string _, h => by simp [shapedValue] at h
  | .array _, h => by simp [shapedValue] at h
theorem shapedAll_ok : ∀ entries : List (Str × Json), shapedAll entries = true →
    ∃ subs, membersLoop entries = .ok subs
  | [], _ => ⟨[], rfl⟩
  | (k, v) :: rest, h => by
    simp only [shapedAll, Bool.and_eq_true] at h
    obtain ⟨t, ht⟩ := shaped_ok v h.1
    obtain ⟨subs, hs⟩ := shapedAll_ok rest h.2
    exact ⟨(k, t) :: subs, by simp only [membersLoop, ht, hs, bind, Except.bind]; rfl⟩
end

/-- What a successful loop over items has built: one child per item, under the
item's key, in the order of the items, each the result of `parse_subfile`. -/
theorem parseEach_forall₂ : ∀ (items : List (Str × Json)) (subs : List (Str × subfile)),
    parseEach items = .ok subs →
    List.Forall₂ (fun item sub => sub.1 = item.1 ∧ parse_subfile item.2 = .ok sub.2) items subs
  | [], subs, h => by
    simp only [parseEach] at h
    cases h
    exact List.Forall₂.nil
  | (k, v) :: rest, subs, h => by
    simp only [parseEach] at h
    obtain ⟨child, hchild, h⟩ := bind_eq_ok h
    obtain ⟨others, hothers, h⟩ := bind_eq_ok h
    cases h
    exact List.Forall₂.cons ⟨rfl, hchild⟩ (parseEach_forall₂ rest others hothers)

theorem isTypeError_bind {α β : Type} {x : Result α} {f : α → Result β}
    (hx : OkOrTypeError x) (hf : ∀ a, x = .ok a → IsTypeError (f a)) :
    IsTypeError (x >>= f) := by
  rcases hx with ⟨a, ha⟩ | ⟨id, hid⟩
  · subst ha; exact hf a rfl
  · subst hid; exact ⟨id, rfl⟩

theorem isTypeError_bind_left {α β : Type} {x : Result α} {f : α → Result β}
    (hx : IsTypeError x) : IsTypeError (x >>= f) := by
  obtain ⟨id, hid⟩ := hx
  subst hid; exact ⟨id, rfl⟩

theorem okOrTypeError_bind {α β : Type} {x : Result α} {f : α → Result β}
    (hx : OkOrTypeError x) (hf : ∀ a, x = .ok a → OkOrTypeError (f a)) :
    OkOrTypeError (x >>= f) := by
  rcases hx with ⟨a, ha⟩ | ⟨id, hid⟩
  · subst ha; exact hf a rfl
  · subst hid; exact Or.inr ⟨id, rfl⟩

theorem okOrTypeError_getString (x : Json) : OkOrTypeError x.getString := by
  cases x <;> first
    | exact Or.inl ⟨_, rfl⟩
    | exact Or.inr ⟨302, rfl⟩

theorem okOrTypeError_getSize (x : Json) (h : lenDefined (some x) = true) :
    OkOrTypeError x.getSize := by
  cases x with
  | number_float m e =>
    simp only [lenDefined] at h
    simp only [Json.getSize]
    cases hf : Json.floatToSize m e with
    | ok n => exact Or.inl ⟨n, rfl⟩
    | error err => rw [hf] at h; cases h
  | number_unsigned n => exact Or.inl ⟨_, rfl⟩
  | number_integer i => exact Or.inl ⟨_, rfl⟩
  | _ => exact Or.inr ⟨302, rfl⟩

theorem notString_of_getString {x : Json} {s : Str} (h : x.getString = .ok s) :
    notString (some x) = false := by
  cases x <;> first
    | rfl
    | cases h

theorem notNumber_of_getSize {x : Json} {n : Nat} (h : x.getSize = .ok n) :
    notNumber (some x) = false := by
  cases x <;> first
    | rfl
    | cases h

theorem isSome_some {x : Option Json} (h : x.isSome = true) : ∃ v, x = some v := by
  cases x with
  | none => cases h
  | some v => exact ⟨v, rfl⟩

/-- The fields of an object that has the three required fields. -/
theorem parse_subfile_present (entries : List (Str × Json)) (x y z : Json)
    (hx : lookup "contenttype".toList entries = some x)
    (hy : lookup "len".toList entries = some y)
    (hz : lookup "filename".toList entries = some z) :
    parse_subfile (.object entries) =
      (x.getString >>= fun c => y.getSize >>= fun n => z.getString >>= fun f =>
        subfilesField entries >>= fun subs => pure (subfile.mk c f n subs)) := by
  simp only [parse_subfile, Json.constAt, hx, hy, hz, bind, Except.bind]

mutual
theorem complete_okOrTypeError : ∀ v : Json, complete v = true → OkOrTypeError (parse_subfile v)
  | .object entries, h => by
    simp only [complete, Bool.and_eq_true] at h
    obtain ⟨⟨⟨⟨h1, h2⟩, h3⟩, h4⟩, h5⟩ := h
    obtain ⟨x, hx⟩ := isSome_some h1
    obtain ⟨y, hy⟩ := isSome_some h2
    obtain ⟨z, hz⟩ := isSome_some h4
    rw [hy] at h3
    rw [parse_subfile_present entries x y z hx hy hz]
    refine okOrTypeError_bind (okOrTypeError_getString x) fun c _ => ?_
    refine okOrTypeError_bind (okOrTypeError_getSize y h3) fun n _ => ?_
    refine okOrTypeError_bind (okOrTypeError_getString z) fun f _ => ?_
    refine okOrTypeError_bind (completeField_okOrTypeError entries h5) fun subs _ => ?_
    exact Or.inl ⟨_, rfl⟩
  | .null, h => by simp [complete] at h
  | .boolean _, h => by simp [complete] at h
  | .number_integer _, h => by simp [complete] at h
  | .number_unsigned _, h => by simp [complete] at h
  | .number_float _ _, h => by simp [complete] at h
  | .string _, h => by simp [complete] at h
  | .array _, h => by simp [complete] at h
theorem completeField_okOrTypeError : ∀ entries : List (Str × Json),
    completeField entries = true → OkOrTypeError (subfilesField entries)
  | [], _ => Or.inl ⟨[], rfl⟩
  | (k, v) :: rest, h => by
    unfold completeField at h
    unfold subfilesField
    split at h
    · rename_i hk
      rw [if_pos hk]
      exact completeValue_okOrTypeError v h
    · rename_i hk
      rw [if_neg hk]
      exact completeField_okOrTypeError rest h
theorem completeValue_okOrTypeError : ∀ v : Json,
    completeValue v = true → OkOrTypeError (subfilesLoop v)
  | .object entries, h => by
    unfold completeValue at h
    unfold subfilesLoop
    exact completeAll_okOrTypeError entries h
  | .null, h => by simp [completeValue] at h
  | .boolean _, h => by simp [completeValue] at h
  | .number_integer _, h => by simp [completeValue] at h
  | .number_unsigned _, h => by simp [completeValue] at h
  | .number_float _ _, h => by simp [completeValue] at h
  | .string _, h => by simp [completeValue] at h
  | .array _, h => by simp [completeValue] at h
theorem completeAll_okOrTypeError : ∀ entries : List (Str × Json),
    completeAll entries = true → OkOrTypeError (membersLoop entries)
  | [], _ => Or.inl ⟨[], rfl⟩
  | (k, v) :: rest, h => by
    simp only [completeAll, Bool.and_eq_true] at h
    unfold membersLoop
    refine okOrTypeError_bind (complete_okOrTypeError v h.1) fun child _ => ?_
    refine okOrTypeError_bind (completeAll_okOrTypeError rest h.2) fun others _ => ?_
    exact Or.inl ⟨_, rfl⟩
end

mutual
theorem illTyped_isTypeError : ∀ v : Json, complete v = true → illTyped v = true →
    IsTypeError (parse_subfile v)
  | .object entries, h, hi => by
    simp only [complete, Bool.and_eq_true] at h
    obtain ⟨⟨⟨⟨h1, h2⟩, h3⟩, h4⟩, h5⟩ := h
    obtain ⟨x, hx⟩ := isSome_some h1
    obtain ⟨y, hy⟩ := isSome_some h2
    obtain ⟨z, hz⟩ := isSome_some h4
    rw [hy] at h3
    simp only [illTyped, hx, hy, hz, Bool.or_eq_true] at hi
    rw [parse_subfile_present entries x y z hx hy hz]
    refine isTypeError_bind (okOrTypeError_getString x) fun c hc => ?_
    refine isTypeError_bind (okOrTypeError_getSize y h3) fun n hn => ?_
    refine isTypeError_bind (okOrTypeError_getString z) fun f hf => ?_
    have hfield : illTypedField entries = true := by
      rcases hi with ((hi | hi) | hi) | hi
      · rw [notString_of_getString hc] at hi; cases hi
      · rw [notNumber_of_getSize hn] at hi; cases hi
      · rw [notString_of_getString hf] at hi; cases hi
      · exact hi
    exact isTypeError_bind_left (illTypedField_isTypeError entries h5 hfield)
  | .null, h, _ => by simp [complete] at h
  | .boolean _, h, _ => by simp [complete] at h
  | .number_integer _, h, _ => by simp [complete] at h
  | .number_unsigned _, h, _ => by simp [complete] at h
  | .number_float _ _, h, _ => by simp [complete] at h
  | .string _, h, _ => by simp [complete] at h
  | .array _, h, _ => by simp [complete] at h
theorem illTypedField_isTypeError : ∀ entries : List (Str × Json),
    completeField entries = true → illTypedField entries = true →
    IsTypeError (subfilesField entries)
  | [], _, hi => by simp [illTypedField] at hi
  | (k, v) :: rest, h, hi => by
    unfold completeField at h
    unfold illTypedField at hi
    unfold subfilesField
    by_cases hk : k = "subfiles".toList
    · rw [if_pos hk] at h hi ⊢
      exact illTypedValue_isTypeError v h hi
    · rw [if_neg hk] at h hi ⊢
      exact illTypedField_isTypeError rest h hi
theorem illTypedValue_isTypeError : ∀ v : Json,
    completeValue v = true → illTypedValue v = true → IsTypeError (subfilesLoop v)
  | .object entries, h, hi => by
    unfold completeValue at h
    unfold illTypedValue at hi
    unfold subfilesLoop
    exact illTypedAny_isTypeError entries h hi
  | .null, h, _ => by simp [completeValue] at h
  | .boolean _, h, _ => by simp [completeValue] at h
  | .number_integer _, h, _ => by simp [completeValue] at h
  | .number_unsigned _, h, _ => by simp [completeValue] at h
  | .number_float _ _, h, _ => by simp [completeValue] at h
  | .string _, h, _ => by simp [completeValue] at h
  | .array _, h, _ => by simp [completeValue] at h
theorem illTypedAny_isTypeError : ∀ entries : List (Str × Json),
    completeAll entries = true → illTypedAny entries = true →
    IsTypeError (membersLoop entries)
  | [], _, hi => by simp [illTypedAny] at hi
  | (k, v) :: rest, h, hi => by
    simp only [completeAll, Bool.and_eq_true] at h
    simp only [illTypedAny, Bool.or_eq_true] at hi
    unfold membersLoop
    rcases hi with hi | hi
    · exact isTypeError_bind_left (illTyped_isTypeError v h.1 hi)
    · refine isTypeError_bind (complete_okOrTypeError v h.1) fun child _ => ?_
      exact isTypeError_bind_left (illTypedAny_isTypeError rest h.2 hi)
end

theorem size_minus_one (n : Nat) (h0 : 0 < n) (hn : n < SIZE_MODULUS) :
    (n + SIZE_MODULUS - 1) % SIZE_MODULUS = n - 1 := by
  have h : n + SIZE_MODULUS - 1 = (n - 1) + SIZE_MODULUS := by omega
  rw [h, Nat.add_mod_right, Nat.mod_eq_of_lt (by omega)]

/-- The result of `trimTrailingSlash` on a non-empty string, in closed form. -/
theorem trimTrailingSlash_eq (s : Str) (hne : s ≠ []) (hlen : s.length < SIZE_MODULUS) :
    trimTrailingSlash s = .ok (if s.getLast? = some '/' then s.dropLast else s) := by
  have h0 : 0 < s.length := List.length_pos.mpr hne
  have hlt : s.length - 1 < s.length := by omega
  unfold trimTrailingSlash
  rw [size_minus_one s.length h0 hlen]
  have hc : charAt s (s.length - 1) = .ok (s.get ⟨s.length - 1, hlt⟩) := by
    simp [charAt, hlt]
  have hlast : s.getLast? = some (s.get ⟨s.length - 1, hlt⟩) := by
    rw [List.getLast?_eq_getElem?, List.getElem?_eq_getElem hlt]
    rfl
  simp only [hc, bind, Except.bind, hlast, Option.some.injEq, List.dropLast_eq_take]
  split <;> rfl

theorem write_sent (grammar : Str → Option Document) (net : Request → Response)
    (options : portal_options) (data : List Nat) (filename a b : Str)
    (ha : trimTrailingSlash options.url = .ok a)
    (hb : trimTrailingSlash options.uploadPath = .ok b) :
    (skynet.write grammar net options data filename).1 =
      [Request.mk .POST (a ++ b) [("filename".toList, filename)]
        [Part.mk options.fileFieldname filename data]] := by
  unfold skynet.write
  rw [ha, hb]
  rfl

theorem write_files_sent (grammar : Str → Option Document) (net : Request → Response)
    (options : portal_options) (files : List upload) (filename a b : Str)
    (ha : trimTrailingSlash options.url = .ok a)
    (hb : trimTrailingSlash options.uploadPath = .ok b) :
    (skynet.write_files grammar net options files filename).1 =
      [Request.mk .POST (a ++ "/".toList ++ b) [("filename".toList, filename)]
        (files.map fun file => Part.mk options.directoryFileFieldname file.filename file.data)] := by
  unfold skynet.write_files
  rw [ha, hb]
  rfl

theorem readUrl_ok (options : portal_options) (skylink : Str)
    (hurl : options.url ≠ []) (hurlLen : options.url.length < 2 ^ 64) :
    ∃ url, readUrl options skylink = .ok url := by
  unfold readUrl
  rw [trimTrailingSlash_eq options.url hurl hurlLen, trimSiaPrefix_eq]
  exact ⟨_, rfl⟩

/-- With a non-empty base URL `read` issues one request. -/
theorem read_issued (grammar : Str → Option Document) (net : Request → Response)
    (options : portal_options) (skylink : Str)
    (hurl : options.url ≠ []) (hurlLen : options.url.length < 2 ^ 64) :
    ∃ request, (skynet.read grammar net options skylink).1 = [request] := by
  obtain ⟨url, h⟩ := readUrl_ok options skylink hurl hurlLen
  rw [read_sent, h]
  exact ⟨_, rfl⟩

theorem cString_of_no_nul (message : Str) (h : Char.ofNat 0 ∉ message) :
    cString message = message := by
  unfold cString
  apply List.takeWhile_eq_self_iff.mpr
  intro c hc
  have : c ≠ Char.ofNat 0 := fun heq => h (heq ▸ hc)
  simpa using this

theorem char_eq_of_toNat {a b : Char} (h : a.toNat = b.toNat) : a = b :=
  Char.ext (UInt32.ext (by simpa [Char.toNat, UInt32.toNat] using h))

theorem strLt_nil_cons (y : Char) (bs : Str) : strLt [] (y :: bs) = true := by
  simp [strLt, compareStr]

theorem strLt_nil_right (a : Str) : strLt a [] = false := by
  cases a <;> simp [strLt, compareStr]

theorem strLt_cons (x y : Char) (as bs : Str) :
    strLt (x :: as) (y :: bs) = true ↔
      x.toNat < y.toNat ∨ (x.toNat = y.toNat ∧ strLt as bs = true) := by
  unfold strLt
  rw [compareStr]
  by_cases h1 : x.toNat < y.toNat
  · simp [h1]
  · by_cases h2 : y.toNat < x.toNat
    · have : x.toNat ≠ y.toNat := by omega
      simp [h1, h2, this]
    · have : x.toNat = y.toNat := by omega
      simp [h1, h2, this]

theorem strLt_irrefl (a : Str) : strLt a a = false := by
  simp [strLt, (compareStr_eq_zero a a).mpr rfl]

theorem strLt_trans : ∀ (a b c : Str), strLt a b = true → strLt b c = true → strLt a c = true
  | _, [], _, hab, _ => by rw [strLt_nil_right] at hab; cases hab
  | _, _ :: _, [], _, hbc => by rw [strLt_nil_right] at hbc; cases hbc
  | [], _ :: _, z :: cs, _, _ => strLt_nil_cons z cs
  | x :: as, y :: bs, z :: cs, hab, hbc => by
    rw [strLt_cons] at hab hbc ⊢
    rcases hab with h1 | ⟨h1, h1'⟩ <;> rcases hbc with h2 | ⟨h2, h2'⟩
    · exact Or.inl (by omega)
    · exact Or.inl (by omega)
    · exact Or.inl (by omega)
    · exact Or.inr ⟨by omega, strLt_trans as bs cs h1' h2'⟩

theorem strLt_total : ∀ (a b : Str), a ≠ b → strLt a b = false → strLt b a = true
  | [], [], hne, _ => absurd rfl hne
  | [], y :: bs, _, h => by rw [strLt_nil_cons] at h; cases h
  | x :: as, [], _, _ => strLt_nil_cons x as
  | x :: as, y :: bs, hne, h => by
    have hn : ¬ (x.toNat < y.toNat ∨ (x.toNat = y.toNat ∧ strLt as bs = true)) := by
      rw [← strLt_cons, h]; simp
    rw [strLt_cons]
    by_cases heq : x.toNat = y.toNat
    · have hxy : x = y := char_eq_of_toNat heq
      subst hxy
      have hne' : as ≠ bs := fun h' => hne (by rw [h'])
      have hlt : strLt as bs = false := by
        cases hs : strLt as bs with
        | false => rfl
        | true => exact absurd (Or.inr ⟨rfl, hs⟩) hn
      exact Or.inr ⟨rfl, strLt_total as bs hne' hlt⟩
    · have : ¬ x.toNat < y.toNat := fun h' => hn (Or.inl h')
      exact Or.inl (by omega)

theorem mem_keys_assign (key : Str) (value : Json) :
    ∀ (entries : List (Str × Json)) (x : Str),
      x ∈ (assign key value entries).map Prod.fst → x = key ∨ x ∈ entries.map Prod.fst
  | [], x, h => by
    simp only [assign, List.map_cons, List.map_nil, List.mem_singleton] at h
    exact Or.inl h
  | (k, v) :: rest, x, h => by
    unfold assign at h
    by_cases h1 : k = key
    · rw [if_pos h1] at h
      simp only [List.map_cons, List.mem_cons] at h ⊢
      rcases h with h | h
      · exact Or.inl h
      · exact Or.inr (Or.inr h)
    · rw [if_neg h1] at h
      by_cases h2 : strLt key k = true
      · rw [if_pos h2] at h
        simp only [List.map_cons, List.mem_cons] at h ⊢
        rcases h with h | h | h
        · exact Or.inl h
        · exact Or.inr (Or.inl h)
        · exact Or.inr (Or.inr h)
      · rw [if_neg h2] at h
        simp only [List.map_cons, List.mem_cons] at h ⊢
        rcases h with h | h
        · exact Or.inr (Or.inl h)
        · rcases mem_keys_assign key value rest x h with h | h
          · exact Or.inl h
          · exact Or.inr (Or.inr h)

/-- Storing a key keeps the entries of a map in strictly ascending order. -/
theorem ascending_assign (key : Str) (value : Json) :
    ∀ entries : List (Str × Json), Ascending (entries.map Prod.fst) →
      Ascending ((assign key value entries).map Prod.fst)
  | [], _ => by simp [assign, Ascending]
  | (k, v) :: rest, h => by
    unfold Ascending at h ⊢
    simp only [List.map_cons, List.pairwise_cons] at h
    obtain ⟨hk, hrest⟩ := h
    unfold assign
    by_cases h1 : k = key
    · rw [if_pos h1]
      subst h1
      simp only [List.map_cons, List.pairwise_cons]
      exact ⟨hk, hrest⟩
    · rw [if_neg h1]
      by_cases h2 : strLt key k = true
      · rw [if_pos h2]
        simp only [List.map_cons, List.pairwise_cons, List.mem_cons]
        refine ⟨?_, hk, hrest⟩
        intro x hx
        rcases hx with hx | hx
        · rw [hx]; exact h2
        · exact strLt_trans key k x h2 (hk x hx)
      · rw [if_neg h2]
        simp only [List.map_cons, List.pairwise_cons]
        refine ⟨?_, ascending_assign key value rest hrest⟩
        intro x hx
        rcases mem_keys_assign key value rest x hx with hx | hx
        · rw [hx]
          exact strLt_total key k (fun h' => h1 h'.symm) (by simpa using h2)
        · exact hk x hx

theorem entriesSorted_assign (key : Str) (value : Json) (hv : value.Sorted) :
    ∀ entries : List (Str × Json), Json.EntriesSorted entries →
      Json.EntriesSorted (assign key value entries)
  | [], _ => by
    simp only [assign, Json.EntriesSorted]
    exact ⟨hv, trivial⟩
  | (k, v) :: rest, h => by
    simp only [Json.EntriesSorted] at h
    unfold assign
    by_cases h1 : k = key
    · rw [if_pos h1]
      simp only [Json.EntriesSorted]
      exact ⟨hv, h.2⟩
    · rw [if_neg h1]
      by_cases h2 : strLt key k = true
      · rw [if_pos h2]
        simp only [Json.EntriesSorted]
        exact ⟨hv, h.1, h.2⟩
      · rw [if_neg h2]
        simp only [Json.EntriesSorted]
        exact ⟨h.1, entriesSorted_assign key value hv rest h.2⟩

mutual
/-- The value built from a text is sorted: every object in it has its entries
in strictly ascending order of name, whatever the order in the text. -/
theorem dom_sorted : ∀ d : Document, d.dom.Sorted
  | .null => by simp only [Document.dom, Json.Sorted]
  | .boolean _ => by simp only [Document.dom, Json.Sorted]
  | .number_integer _ => by simp only [Document.dom, Json.Sorted]
  | .number_unsigned _ => by simp only [Document.dom, Json.Sorted]
  | .number_float _ _ => by simp only [Document.dom, Json.Sorted]
  | .string _ => by simp only [Document.dom, Json.Sorted]
  | .array elements => by
    simp only [Document.dom, Json.Sorted]
    exact domElements_sorted elements
  | .object members => by
    simp only [Document.dom, Json.Sorted]
    exact domMembers_sorted members [] (by simp [Ascending]) (by simp only [Json.EntriesSorted])
theorem domElements_sorted : ∀ ds : List Document, Json.ElementsSorted (Document.domElements ds)
  | [] => by simp only [Document.domElements, Json.ElementsSorted]
  | d :: ds => by
    simp only [Document.domElements, Json.ElementsSorted]
    exact ⟨dom_sorted d, domElements_sorted ds⟩
theorem domMembers_sorted : ∀ (ms : List (Str × Document)) (acc : List (Str × Json)),
    Ascending (acc.map Prod.fst) → Json.EntriesSorted acc →
    Ascending ((Document.domMembers ms acc).map Prod.fst) ∧
      Json.EntriesSorted (Document.domMembers ms acc)
  | [], acc, h1, h2 => by
    simp only [Document.domMembers]
    exact ⟨h1, h2⟩
  | (k, d) :: ms, acc, h1, h2 => by
    simp only [Document.domMembers]
    exact domMembers_sorted ms _ (ascending_assign k _ acc h1)
      (entriesSorted_assign k _ (dom_sorted d) acc h2)
end

theorem nodup_of_ascending (names : List Str) (h : Ascending names) : names.Nodup := by
  unfold Ascending at h
  unfold List.Nodup
  refine h.imp ?_
  intro a b hab heq
  subst heq
  rw [strLt_irrefl] at hab
  cases hab

theorem indexed_names : ∀ (i : Nat) (elements : List Json),
    (Json.indexed i elements).map Prod.fst = indexNames i elements.length
  | _, [] => rfl
  | i, v :: rest => by
    simp only [Json.indexed, List.map_cons, List.length_cons, indexNames,
      indexed_names (i + 1) rest]

theorem indexNames_length : ∀ (i n : Nat), (indexNames i n).length = n
  | _, 0 => rfl
  | i, n + 1 => by simp only [indexNames, List.length_cons, indexNames_length (i + 1) n]

mutual
theorem parse_subfile_ordered : ∀ (v : Json) (t : subfile), v.Sorted →
    parse_subfile v = .ok t → t.EveryNode NodeNames
  | .object entries, t, hs, h => by
    simp only [Json.Sorted] at hs
    unfold parse_subfile at h
    obtain ⟨a, _, h⟩ := bind_eq_ok h
    obtain ⟨ct, _, h⟩ := bind_eq_ok h
    obtain ⟨b, _, h⟩ := bind_eq_ok h
    obtain ⟨n, _, h⟩ := bind_eq_ok h
    obtain ⟨c, _, h⟩ := bind_eq_ok h
    obtain ⟨f, _, h⟩ := bind_eq_ok h
    obtain ⟨subs, hsubs, h⟩ := bind_eq_ok h
    cases h
    simp only [subfile.EveryNode]
    exact subfilesField_ordered entries subs hs.2 hsubs
  | .null, _, _, h => by simp [parse_subfile] at h
  | .boolean _, _, _, h => by simp [parse_subfile] at h
  | .number_integer _, _, _, h => by simp [parse_subfile] at h
  | .number_unsigned _, _, _, h => by simp [parse_subfile] at h
  | .number_float _ _, _, _, h => by simp [parse_subfile] at h
  | .string _, _, _, h => by simp [parse_subfile] at h
  | .array _, _, _, h => by simp [parse_subfile] at h
theorem subfilesField_ordered : ∀ (entries : List (Str × Json)) (subs : List (Str × subfile)),
    Json.EntriesSorted entries → subfilesField entries = .ok subs →
    NodeNames (subs.map Prod.fst) ∧ subfile.EveryChild NodeNames subs
  | [], subs, _, h => by
    simp only [subfilesField] at h
    cases h
    exact ⟨Or.inr rfl, by simp only [subfile.EveryChild]⟩
  | (k, v) :: rest, subs, hs, h => by
    simp only [Json.EntriesSorted] at hs
    unfold subfilesField at h
    by_cases hk : k = "subfiles".toList
    · rw [if_pos hk] at h
      exact subfilesLoop_ordered v subs hs.1 h
    · rw [if_neg hk] at h
      exact subfilesField_ordered rest subs hs.2 h
theorem subfilesLoop_ordered : ∀ (v : Json) (subs : List (Str × subfile)),
    v.Sorted → subfilesLoop v = .ok subs →
    NodeNames (subs.map Prod.fst) ∧ subfile.EveryChild NodeNames subs
  | .object entries, subs, hs, h => by
    simp only [Json.Sorted] at hs
    unfold subfilesLoop at h
    obtain ⟨hnames, hchildren⟩ := membersLoop_ordered entries subs hs.2 h
    rw [hnames]
    exact ⟨Or.inl ⟨hs.1, nodup_of_ascending _ hs.1⟩, hchildren⟩
  | .array elements, subs, hs, h => by
    simp only [Json.Sorted] at hs
    unfold subfilesLoop at h
    obtain ⟨hnames, hchildren⟩ := elementsLoop_ordered 0 elements subs hs h
    refine ⟨Or.inr ?_, hchildren⟩
    have hlen : (subs.map Prod.fst).length = elements.length := by
      rw [hnames, indexed_names, indexNames_length]
    rw [hlen, hnames, indexed_names]
  | .null, subs, _, h => by
    simp only [subfilesLoop] at h
    cases h
    exact ⟨Or.inr rfl, by simp only [subfile.EveryChild]⟩
  | .boolean _, _, _, h => by simp [subfilesLoop] at h
  | .number_integer _, _, _, h => by simp [subfilesLoop] at h
  | .number_unsigned _, _, _, h => by simp [subfilesLoop] at h
  | .number_float _ _, _, _, h => by simp [subfilesLoop] at h
  | .string _, _, _, h => by simp [subfilesLoop] at h
theorem membersLoop_ordered : ∀ (entries : List (Str × Json)) (subs : List (Str × subfile)),
    Json.EntriesSorted entries → membersLoop entries = .ok subs →
    subs.map Prod.fst = entries.map Prod.fst ∧ subfile.EveryChild NodeNames subs
  | [], subs, _, h => by
    simp only [membersLoop] at h
    cases h
    exact ⟨rfl, by simp only [subfile.EveryChild]⟩
  | (k, v) :: rest, subs, hs, h => by
    simp only [Json.EntriesSorted] at hs
    unfold membersLoop at h
    obtain ⟨child, hchild, h⟩ := bind_eq_ok h
    obtain ⟨others, hothers, h⟩ := bind_eq_ok h
    cases h
    obtain ⟨hn, hc⟩ := membersLoop_ordered rest others hs.2 hothers
    simp only [List.map_cons, hn, subfile.EveryChild]
    exact ⟨trivial, parse_subfile_ordered v child hs.1 hchild, hc⟩
theorem elementsLoop_ordered : ∀ (i : Nat) (elements : List Json)
    (subs : List (Str × subfile)),
    Json.ElementsSorted elements → elementsLoop i elements = .ok subs →
    subs.map Prod.fst = (Json.indexed i elements).map Prod.fst ∧ subfile.EveryChild NodeNames subs
  | _, [], subs, _, h => by
    simp only [elementsLoop] at h
    cases h
    exact ⟨rfl, by simp only [subfile.EveryChild]⟩
  | i, v :: rest, subs, hs, h => by
    simp only [Json.ElementsSorted] at hs
    unfold elementsLoop at h
    obtain ⟨child, hchild, h⟩ := bind_eq_ok h
    obtain ⟨others, hothers, h⟩ := bind_eq_ok h
    cases h
    obtain ⟨hn, hc⟩ := elementsLoop_ordered (i + 1) rest others hs.2 hothers
    simp only [List.map_cons, hn, Json.indexed, subfile.EveryChild]
    exact ⟨trivial, parse_subfile_ordered v child hs.1 hchild, hc⟩
end

mutual
theorem parse_subfile_ascending : ∀ (v : Json) (t : subfile), v.Sorted →
    objectSubfiles v = true → parse_subfile v = .ok t → t.EveryNode AscendingDistinct
  | .object entries, t, hs, ho, h => by
    simp only [Json.Sorted] at hs
    simp only [objectSubfiles] at ho
    unfold parse_subfile at h
    obtain ⟨a, _, h⟩ := bind_eq_ok h
    obtain ⟨ct, _, h⟩ := bind_eq_ok h
    obtain ⟨b, _, h⟩ := bind_eq_ok h
    obtain ⟨n, _, h⟩ := bind_eq_ok h
    obtain ⟨c, _, h⟩ := bind_eq_ok h
    obtain ⟨f, _, h⟩ := bind_eq_ok h
    obtain ⟨subs, hsubs, h⟩ := bind_eq_ok h
    cases h
    simp only [subfile.EveryNode]
    exact subfilesField_ascending entries subs hs.2 ho hsubs
  | .null, _, _, _, h => by simp [parse_subfile] at h
  | .boolean _, _, _, _, h => by simp [parse_subfile] at h
  | .number_integer _, _, _, _, h => by simp [parse_subfile] at h
  | .number_unsigned _, _, _, _, h => by simp [parse_subfile] at h
  | .number_float _ _, _, _, _, h => by simp [parse_subfile] at h
  | .string _, _, _, _, h => by simp [parse_subfile] at h
  | .array _, _, _, _, h => by simp [parse_subfile] at h
theorem subfilesField_ascending : ∀ (entries : List (Str × Json)) (subs : List (Str × subfile)),
    Json.EntriesSorted entries → objectSubfilesField entries = true →
    subfilesField entries = .ok subs →
    AscendingDistinct (subs.map Prod.fst) ∧ subfile.EveryChild AscendingDistinct subs
  | [], subs, _, _, h => by
    simp only [subfilesField] at h
    cases h
    exact ⟨⟨by simp [Ascending], by simp⟩, by simp only [subfile.EveryChild]⟩
  | (k, v) :: rest, subs, hs, ho, h => by
    simp only [Json.EntriesSorted] at hs
    unfold objectSubfilesField at ho
    unfold subfilesField at h
    by_cases hk : k = "subfiles".toList
    · rw [if_pos hk] at h ho
      exact subfilesLoop_ascending v subs hs.1 ho h
    · rw [if_neg hk] at h ho
      exact subfilesField_ascending rest subs hs.2 ho h
theorem subfilesLoop_ascending : ∀ (v : Json) (subs : List (Str × subfile)),
    v.Sorted → objectSubfilesValue v = true → subfilesLoop v = .ok subs →
    AscendingDistinct (subs.map Prod.fst) ∧ subfile.EveryChild AscendingDistinct subs
  | .object entries, subs, hs, ho, h => by
    simp only [Json.Sorted] at hs
    simp only [objectSubfilesValue] at ho
    unfold subfilesLoop at h
    obtain ⟨hnames, hchildren⟩ := membersLoop_ascending entries subs hs.2 ho h
    rw [hnames]
    exact ⟨⟨hs.1, nodup_of_ascending _ hs.1⟩, hchildren⟩
  | .array _, _, _, ho, _ => by simp [objectSubfilesValue] at ho
  | .null, _, _, ho, _ => by simp [objectSubfilesValue] at ho
  | .boolean _, _, _, ho, _ => by simp [objectSubfilesValue] at ho
  | .number_integer _, _, _, ho, _ => by simp [objectSubfilesValue] at ho
  | .number_unsigned _, _, _, ho, _ => by simp [objectSubfilesValue] at ho
  | .number_float _ _, _, _, ho, _ => by simp [objectSubfilesValue] at ho
  | .string _, _, _, ho, _ => by simp [objectSubfilesValue] at ho
theorem membersLoop_ascending : ∀ (entries : List (Str × Json)) (subs : List (Str × subfile)),
    Json.EntriesSorted entries → objectSubfilesAll entries = true →
    membersLoop entries = .ok subs →
    subs.map Prod.fst = entries.map Prod.fst ∧ subfile.EveryChild AscendingDistinct subs
  | [], subs, _, _, h => by
    simp only [membersLoop] at h
    cases h
    exact ⟨rfl, by simp only [subfile.EveryChild]⟩
  | (k, v) :: rest, subs, hs, ho, h => by
    simp only [Json.EntriesSorted] at hs
    simp only [objectSubfilesAll, Bool.and_eq_true] at ho
    unfold membersLoop at h
    obtain ⟨child, hchild, h⟩ := bind_eq_ok h
    obtain ⟨others, hothers, h⟩ := bind_eq_ok h
    cases h
    obtain ⟨hn, hc⟩ := membersLoop_ascending rest others hs.2 ho.2 hothers
    simp only [List.map_cons, hn, subfile.EveryChild]
    exact ⟨trivial, parse_subfile_ascending v child hs.1 ho.1 hchild, hc⟩
end

/-! ## The claims -/

theorem writeToField_outcome (grammar : Str → Option Document) (net : Request → Response)
    (files : List upload) (filename url field : Str) (request : Request)
    (hsent : (writeToField grammar net files filename url field).1 = [request]) :
    (writeToField grammar net files filename url field).2 =
      (json_parse grammar (net request).text >>= fun json =>
        json.refAt "skylink".toList >>= fun value =>
        value.getString >>= fun skylink =>
        pure ("sia://".toList ++ skylink)) := by
  unfold writeToField at hsent ⊢
  simp only [List.cons.injEq, and_true] at hsent
  simp only [hsent]

theorem upload_outcome (grammar : Str → Option Document) (net : Request → Response)
    (options : portal_options) (data : List Nat) (files : List upload) (filename : Str)
    (run : List Request × Result Str)
    (hrun : run = skynet.write grammar net options data filename ∨
      run = skynet.write_files grammar net options files filename)
    (request : Request) (hsent : run.1 = [request]) :
    run.2 =
      (json_parse grammar (net request).text >>= fun json =>
        json.refAt "skylink".toList >>= fun value =>
        value.getString >>= fun skylink =>
        pure ("sia://".toList ++ skylink)) := by
  rcases hrun with h | h
  · subst h
    unfold skynet.write at hsent ⊢
    split at hsent
    · cases hsent
    · exact writeToField_outcome _ _ _ _ _ _ _ hsent
  · subst h
    unfold skynet.write_files at hsent ⊢
    split at hsent
    · cases hsent
    · exact writeToField_outcome _ _ _ _ _ _ _ hsent

/-- C1: with a non-empty base URL and upload path, the single-file and the
multi-file `write` each issue their POST request, and for the body of the
response: a body that parses to a JSON object whose `skylink` is the string
`s` makes `write` return `"sia://" ++ s`; a body that is not a JSON text makes
it fail with a `parse_error`; a body that is JSON without a `skylink` field
makes it fail with a `type_error`. The two failures are the upload error, and
no skylink is returned. -/
theorem write_returns_prefixed_skylink (grammar : Str → Option Document)
    (net : Request → Response) (options : portal_options) (data : List Nat)
    (files : List upload) (filename : Str)
    (hurl : options.url ≠ []) (hpath : options.uploadPath ≠ [])
    (hurlLen : options.url.length < 2 ^ 64) (hpathLen : options.uploadPath.length < 2 ^ 64)
    (run : List Request × Result Str)
    (hrun : run = skynet.write grammar net options data filename ∨
      run = skynet.write_files grammar net options files filename) :
    ∃ request, run.1 = [request] ∧
      (∀ entries s, json_parse grammar (net request).text = .ok (.object entries) →
        lookup "skylink".toList entries = some (.string s) →
        run.2 = .ok ("sia://".toList ++ s)) ∧
      (grammar (net request).text = none → run.2 = .error .parse_error) ∧
      (∀ json, json_parse grammar (net request).text = .ok json →
        json.contains "skylink".toList = false →
        ∃ id, run.2 = .error (.type_error id)) := by
  have ha := trimTrailingSlash_eq options.url hurl hurlLen
  have hb := trimTrailingSlash_eq options.uploadPath hpath hpathLen
  have hsent : ∃ request, run.1 = [request] := by
    rcases hrun with h | h
    · exact ⟨_, by rw [h]; exact write_sent grammar net options data filename _ _ ha hb⟩
    · exact ⟨_, by rw [h]; exact write_files_sent grammar net options files filename _ _ ha hb⟩
  obtain ⟨request, hsent⟩ := hsent
  refine ⟨request, hsent, ?_⟩
  rw [upload_outcome grammar net options data files filename run hrun request hsent]
  refine ⟨?_, ?_, ?_⟩
  · intro entries s hparse hlook
    rw [hparse]
    simp only [bind, Except.bind, Json.refAt, hlook, Json.getString, pure, Except.pure]
  · intro hnone
    simp only [json_parse, hnone, bind, Except.bind]
  · intro json hparse hlacks
    rw [hparse]
    cases json with
    | object entries =>
      have hnone : lookup "skylink".toList entries = none := by
        simpa [Json.contains] using hlacks
      exact ⟨302, by simp only [bind, Except.bind, Json.refAt, hnone, Json.getString]⟩
    | null => exact ⟨302, by simp only [bind, Except.bind, Json.refAt, Json.getString]⟩
    | _ => exact ⟨305, by simp only [bind, Except.bind, Json.refAt]⟩

/-- C1, witness: the body `{"skylink":"AAB"}` gives the skylink `sia://AAB` to
the single-file and to the multi-file `write`; the body `not found` makes the
multi-file `write` fail with a `parse_error`, and the body `{"filename":"f"}`
makes the single-file `write` fail with a `type_error`. -/
theorem write_returns_prefixed_skylink_witness :
    (skynet.write exampleGrammar (constantPortal uploadedResponse) skynet.default_options
        [104, 105] "hi.txt".toList).2 = .ok "sia://AAB".toList ∧
      (skynet.write_files exampleGrammar (constantPortal uploadedResponse)
        skynet.default_options [upload.mk "a.txt".toList [1], upload.mk "b.txt".toList [2, 3]]
        "dir".toList).2 = .ok "sia://AAB".toList ∧
      (skynet.write_files exampleGrammar (constantPortal notFoundResponse)
        skynet.default_options [upload.mk "a.txt".toList [1], upload.mk "b.txt".toList [2, 3]]
        "dir".toList).2 = .error .parse_error ∧
      ∃ id, (skynet.write exampleGrammar (constantPortal noSkylinkResponse)
        skynet.default_options [104, 105] "hi.txt".toList).2 = .error (.type_error id) := by
  refine ⟨?_, ?_, ?_, ?_⟩
  · obtain ⟨request, _, h, _, _⟩ := write_returns_prefixed_skylink exampleGrammar
      (constantPortal uploadedResponse) skynet.default_options [104, 105] [] "hi.txt".toList
      (by decide) (by decide) (by decide) (by decide) _ (Or.inl rfl)
    exact h [("skylink".toList, .string "AAB".toList)] "AAB".toList (by rfl) (by rfl)
  · obtain ⟨request, _, h, _, _⟩ := write_returns_prefixed_skylink exampleGrammar
      (constantPortal uploadedResponse) skynet.default_options []
      [upload.mk "a.txt".toList [1], upload.mk "b.txt".toList [2, 3]] "dir".toList
      (by decide) (by decide) (by decide) (by decide) _ (Or.inr rfl)
    exact h [("skylink".toList, .string "AAB".toList)] "AAB".toList (by rfl) (by rfl)
  · obtain ⟨request, _, _, h, _⟩ := write_returns_prefixed_skylink exampleGrammar
      (constantPortal notFoundResponse) skynet.default_options []
      [upload.mk "a.txt".toList [1], upload.mk "b.txt".toList [2, 3]] "dir".toList
      (by decide) (by decide) (by decide) (by decide) _ (Or.inr rfl)
    exact h (by rfl)
  · obtain ⟨request, _, _, _, h⟩ := write_returns_prefixed_skylink exampleGrammar
      (constantPortal noSkylinkResponse) skynet.default_options [104, 105] [] "hi.txt".toList
      (by decide) (by decide) (by decide) (by decide) _ (Or.inl rfl)
    exact h (.object [("filename".toList, .string "f".toList)]) (by rfl) (by rfl)

/-- C2, as stated, fails: with status 404 and the body `not`, a null character,
`found`, the error that `read` throws carries `not`, which is not the body. -/
theorem read_payload_counterexample :
    (skynet.read exampleGrammar
        (constantPortal (Response.mk 404 ("not".toList ++ [Char.ofNat 0] ++ "found".toList) []))
        skynet.default_options "sia://AAB".toList).2
      = .error (.runtime_error "not".toList) ∧
    (skynet.read exampleGrammar
        (constantPortal (Response.mk 404 ("not".toList ++ [Char.ofNat 0] ++ "found".toList) []))
        skynet.default_options "sia://AAB".toList).2
      ≠ .error (.runtime_error ("not".toList ++ [Char.ofNat 0] ++ "found".toList)) := by
  constructor
  · rfl
  · intro h
    have h' := Failure.runtime_error.inj (Except.error.inj h)
    revert h'
    decide

/-- C2, amended: with a non-empty base URL, `read` issues its GET request and
fails with a `std::runtime_error` (the download error) if and only if the
status code of the response is not 200; the payload of the error is then the
response body up to its first null character, whatever the response headers
are, and is exactly the response body when the body has no null character. -/
theorem read_download_error (grammar : Str → Option Document)
    (net : Request → Response) (options : portal_options) (skylink : Str)
    (hurl : options.url ≠ []) (hurlLen : options.url.length < 2 ^ 64) :
    ∃ request, (skynet.read grammar net options skylink).1 = [request] ∧
      ((∃ what, (skynet.read grammar net options skylink).2 = .error (.runtime_error what)) ↔
        (net request).status_code ≠ 200) ∧
      ((net request).status_code ≠ 200 →
        (skynet.read grammar net options skylink).2 =
            .error (.runtime_error
              ((net request).text.takeWhile (fun c => c != Char.ofNat 0))) ∧
          (Char.ofNat 0 ∉ (net request).text →
            (skynet.read grammar net options skylink).2 =
              .error (.runtime_error (net request).text))) := by
  obtain ⟨request, hsent⟩ := read_issued grammar net options skylink hurl hurlLen
  refine ⟨request, hsent, ?_⟩
  rw [read_outcome grammar net options skylink request hsent]
  by_cases hs : (net request).status_code ≠ 200
  · rw [if_pos hs]
    refine ⟨⟨fun _ => hs, fun _ => ⟨_, rfl⟩⟩, fun _ => ⟨rfl, fun hnul => ?_⟩⟩
    rw [cString_of_no_nul _ hnul]
  · rw [if_neg hs]
    refine ⟨⟨fun ⟨what, hw⟩ => ?_, fun h => absurd h hs⟩, fun h => absurd h hs⟩
    have hnr : NotRuntime
        ((extractContentDispositionFilename
          (headerAt (net request).header "content-disposition".toList)) >>= fun filename =>
        parseCprResponse grammar (net request) >>= fun metadata =>
        (pure (sia.response.mk skylink options filename metadata
          ((net request).text.map charToByte)) : Result response)) := by
      obtain ⟨v, hv⟩ := extractContentDispositionFilename_total
        (headerAt (net request).header "content-disposition".toList)
      rw [hv]
      refine notRuntime_bind (notRuntime_ok v) fun f => ?_
      exact notRuntime_bind (notRuntime_parseCprResponse _ _) fun m => notRuntime_ok _
    exact absurd hw (hnr what)

/-- C2, witness: status 404 with the body `not found` makes `read` fail with
the payload `not found`, and status 200 does not make it fail. -/
theorem read_download_error_witness :
    (skynet.read exampleGrammar (constantPortal notFoundResponse) skynet.default_options
        "sia://AAB".toList).2 = .error (.runtime_error "not found".toList) ∧
      ¬ ∃ what, (skynet.read exampleGrammar (constantPortal helloResponse)
        skynet.default_options "sia://AAB".toList).2 = .error (.runtime_error what) := by
  constructor
  · obtain ⟨request, _, _, h⟩ := read_download_error exampleGrammar
      (constantPortal notFoundResponse) skynet.default_options "sia://AAB".toList
      (by decide) (by decide)
    exact (h (show notFoundResponse.status_code ≠ 200 by decide)).2
      (show Char.ofNat 0 ∉ notFoundResponse.text by decide)
  · obtain ⟨request, _, h, _⟩ := read_download_error exampleGrammar
      (constantPortal helloResponse) skynet.default_options "sia://AAB".toList
      (by decide) (by decide)
    intro hfail
    exact (h.mp hfail) (by rfl)

/-- C3: with a non-empty base URL, `read` issues its GET request, and whenever
the status code of the response is 200 and the metadata assembler accepts the
response with the root `metadata`, `read` returns a result whose `skylink` is
the argument, whose `portal` is the client's options, whose `filename` is the
Content-Disposition parser applied to the `content-disposition` header, whose
`metadata` is the assembler's output, and whose `data` is the body byte for
byte: the value of each character taken as `uint8_t`, in the same order, which
is the character's own value for every character that is a byte. -/
theorem read_returns_body_and_metadata (grammar : Str → Option Document)
    (net : Request → Response) (options : portal_options) (skylink : Str)
    (hurl : options.url ≠ []) (hurlLen : options.url.length < 2 ^ 64) :
    ∃ request, (skynet.read grammar net options skylink).1 = [request] ∧
      ∀ metadata, (net request).status_code = 200 →
        parseCprResponse grammar (net request) = .ok metadata →
        ∃ filename,
          extractContentDispositionFilename
              (headerAt (net request).header "content-disposition".toList) = .ok filename ∧
            (skynet.read grammar net options skylink).2 =
              .ok (sia.response.mk skylink options filename metadata
                ((net request).text.map (fun c => c.toNat % 256))) ∧
            ((∀ c ∈ (net request).text, c.toNat < 256) →
              (skynet.read grammar net options skylink).2 =
                .ok (sia.response.mk skylink options filename metadata
                  ((net request).text.map Char.toNat))) := by
  obtain ⟨request, hsent⟩ := read_issued grammar net options skylink hurl hurlLen
  refine ⟨request, hsent, ?_⟩
  intro metadata hstatus hmeta
  obtain ⟨v, hv⟩ := extractContentDispositionFilename_total
    (headerAt (net request).header "content-disposition".toList)
  have hout : (skynet.read grammar net options skylink).2 =
      .ok (sia.response.mk skylink options v metadata
        ((net request).text.map (fun c => c.toNat % 256))) := by
    rw [read_outcome grammar net options skylink request hsent, if_neg (by simp [hstatus]),
      hv, hmeta]
    rfl
  refine ⟨v, hv, hout, ?_⟩
  intro hbytes
  rw [hout]
  congr 2
  apply List.map_congr_left
  intro c hc
  exact Nat.mod_eq_of_lt (hbytes c hc)

/-- C3, witness: a 200 response with the body `hello` gives the file name `f`,
the root taken from the headers and the data 104, 101, 108, 108, 111. -/
theorem read_returns_body_and_metadata_witness :
    (skynet.read exampleGrammar (constantPortal helloResponse) skynet.default_options
        "sia://AAB".toList).2 =
      .ok (sia.response.mk "sia://AAB".toList skynet.default_options "f".toList
        (.mk "text/plain".toList "f".toList 5 []) [104, 101, 108, 108, 111]) := by
  obtain ⟨request, _, h⟩ := read_returns_body_and_metadata exampleGrammar
    (constantPortal helloResponse) skynet.default_options "sia://AAB".toList
    (by decide) (by decide)
  obtain ⟨filename, hf, _, hout⟩ := h (.mk "text/plain".toList "f".toList 5 []) (by rfl) (by rfl)
  have hname : filename = "f".toList :=
    Except.ok.inj (hf.symm.trans
      (show extractContentDispositionFilename
        (headerAt helloResponse.header "content-disposition".toList) = .ok "f".toList
        by decide))
  subst hname
  exact hout (show ∀ c ∈ helloResponse.text, c.toNat < 256 by decide)

/-- C4, as stated, fails: for `X = "sia://a"` the skylink `"sia://" ++ X` is
requested at `https://siasky.net/sia://a` and the bare `X` at
`https://siasky.net/a`, by `query` and by `read` alike. -/
theorem query_url_prefix_counterexample :
    (skynet.query exampleGrammar (constantPortal helloResponse) skynet.default_options
        ("sia://".toList ++ "sia://a".toList)).1.map Request.url
      = ["https://siasky.net/sia://a".toList] ∧
    (skynet.query exampleGrammar (constantPortal helloResponse) skynet.default_options
        "sia://a".toList).1.map Request.url
      = ["https://siasky.net/a".toList] ∧
    (skynet.read exampleGrammar (constantPortal helloResponse) skynet.default_options
        ("sia://".toList ++ "sia://a".toList)).1.map Request.url
      ≠ (skynet.read exampleGrammar (constantPortal helloResponse) skynet.default_options
        "sia://a".toList).1.map Request.url := by
  decide

/-- C4, amended: for every portal options value and every string `X` that does
not itself begin with `sia://`, `query` builds the same request URL for
`"sia://" ++ X` as for the bare `X`, and so does `read`. -/
theorem query_url_prefix (grammar : Str → Option Document) (net : Request → Response)
    (options : portal_options) (x : Str) (hx : ¬ "sia://".toList <+: x) :
    (skynet.query grammar net options ("sia://".toList ++ x)).1.map Request.url
        = (skynet.query grammar net options x).1.map Request.url ∧
      (skynet.read grammar net options ("sia://".toList ++ x)).1.map Request.url
        = (skynet.read grammar net options x).1.map Request.url := by
  rw [query_sent, query_sent, read_sent, read_sent, readUrl_prefix options x hx]
  exact ⟨rfl, rfl⟩

/-- C4, witness: the skylink `AAB` with and without the prefix. -/
theorem query_url_prefix_witness :
    (skynet.query exampleGrammar (constantPortal helloResponse) skynet.default_options
          ("sia://".toList ++ "AAB".toList)).1.map Request.url
        = (skynet.query exampleGrammar (constantPortal helloResponse) skynet.default_options
          "AAB".toList).1.map Request.url ∧
      (skynet.read exampleGrammar (constantPortal helloResponse) skynet.default_options
          ("sia://".toList ++ "AAB".toList)).1.map Request.url
        = (skynet.read exampleGrammar (constantPortal helloResponse) skynet.default_options
          "AAB".toList).1.map Request.url :=
  query_url_prefix exampleGrammar (constantPortal helloResponse) skynet.default_options
    "AAB".toList (by decide)

theorem parseCprResponse_object (grammar : Str → Option Document) (cpr : Response)
    (entries : List (Str × Json)) (n : Nat)
    (hjson : json_parse grammar (headerAt cpr.header "skynet-file-metadata".toList)
      = .ok (.object entries))
    (hlen : stoul (headerAt cpr.header "content-length".toList) = .ok n) :
    parseCprResponse grammar cpr =
      parse_subfile (.object (assign "contenttype".toList
        (.string (headerAt cpr.header "content-type".toList))
        (assign "len".toList (.number_unsigned n) entries))) := by
  unfold parseCprResponse
  simp only [hjson, hlen, bind, Except.bind, Json.set]

theorem parseCprResponse_null (grammar : Str → Option Document) (cpr : Response) (n : Nat)
    (hjson : json_parse grammar (headerAt cpr.header "skynet-file-metadata".toList) = .ok .null)
    (hlen : stoul (headerAt cpr.header "content-length".toList) = .ok n) :
    parseCprResponse grammar cpr =
      parse_subfile (.object (assign "contenttype".toList
        (.string (headerAt cpr.header "content-type".toList))
        (assign "len".toList (.number_unsigned n) []))) := by
  unfold parseCprResponse
  simp only [hjson, hlen, bind, Except.bind, Json.set, assign]

theorem subfilesField_injected (c : Str) (n : Nat) (entries : List (Str × Json)) :
    subfilesField (assign "contenttype".toList (.string c)
      (assign "len".toList (.number_unsigned n) entries)) = subfilesField entries := by
  rw [subfilesField_assign _ _ (by decide), subfilesField_assign _ _ (by decide)]

/-- The assembler on a metadata object with a string `filename` and a numeric
`content-length`: the header values are the root's, the children are those of
the JSON. -/
theorem parseCprResponse_eq (grammar : Str → Option Document) (cpr : Response)
    (entries : List (Str × Json)) (f : Str) (n : Nat)
    (hjson : json_parse grammar (headerAt cpr.header "skynet-file-metadata".toList)
      = .ok (.object entries))
    (hname : lookup "filename".toList entries = some (.string f))
    (hlen : stoul (headerAt cpr.header "content-length".toList) = .ok n)
    (hn : n < SIZE_MODULUS) :
    parseCprResponse grammar cpr =
      (directSubfiles (.object entries) >>= fun subs =>
        pure (subfile.mk (headerAt cpr.header "content-type".toList) f n subs)) := by
  rw [parseCprResponse_object grammar cpr entries n hjson hlen]
  have h1 : lookup "contenttype".toList (assign "contenttype".toList
      (.string (headerAt cpr.header "content-type".toList))
      (assign "len".toList (.number_unsigned n) entries))
      = some (.string (headerAt cpr.header "content-type".toList)) := lookup_assign_same _ _ _
  have h2 : lookup "len".toList (assign "contenttype".toList
      (.string (headerAt cpr.header "content-type".toList))
      (assign "len".toList (.number_unsigned n) entries)) = some (.number_unsigned n) := by
    rw [lookup_assign_other _ _ _ (by decide), lookup_assign_same]
  have h3 : lookup "filename".toList (assign "contenttype".toList
      (.string (headerAt cpr.header "content-type".toList))
      (assign "len".toList (.number_unsigned n) entries)) = some (.string f) := by
    rw [lookup_assign_other _ _ _ (by decide), lookup_assign_other _ _ _ (by decide), hname]
  have h4 : n % SIZE_MODULUS = n := Nat.mod_eq_of_lt hn
  simp only [parse_subfile, Json.constAt, h1, h2, h3, Json.getString, Json.getSize, h4,
    bind, Except.bind, subfilesField_injected]
  rw [subfilesField_eq]

/-- C5: when the metadata header parses to a JSON object with the string
`filename` = `f` and the `content-length` header is a string of decimal digits
of value below `2 ^ 64`, every root that the assembler returns has `len` equal
to that value, `contenttype` equal to the `content-type` header and `filename`
equal to `f`, whatever `len` and `contenttype` the JSON itself defines; and the
assembler does return that root whenever the `subfiles` of the JSON parse (in
particular when there are none). -/
theorem assembler_root_from_headers (grammar : Str → Option Document) (cpr : Response)
    (entries : List (Str × Json)) (f : Str)
    (hjson : json_parse grammar (headerAt cpr.header "skynet-file-metadata".toList)
      = .ok (.object entries))
    (hname : lookup "filename".toList entries = some (.string f))
    (hdigits : isDigitString (headerAt cpr.header "content-length".toList) = true)
    (hrange : digitsValue (headerAt cpr.header "content-length".toList) < 2 ^ 64) :
    (∀ root, parseCprResponse grammar cpr = .ok root →
        root.len = digitsValue (headerAt cpr.header "content-length".toList) ∧
        root.contenttype = headerAt cpr.header "content-type".toList ∧
        root.filename = f) ∧
      (∀ subs, directSubfiles (.object entries) = .ok subs →
        parseCprResponse grammar cpr =
          .ok (.mk (headerAt cpr.header "content-type".toList) f
            (digitsValue (headerAt cpr.header "content-length".toList)) subs)) ∧
      (lookup "subfiles".toList entries = none →
        parseCprResponse grammar cpr =
          .ok (.mk (headerAt cpr.header "content-type".toList) f
            (digitsValue (headerAt cpr.header "content-length".toList)) [])) := by
  have hd : stoul (headerAt cpr.header "content-length".toList)
      = .ok (digitsValue (headerAt cpr.header "content-length".toList)) := by
    simp only [isDigitString, Bool.and_eq_true, decide_eq_true_eq, List.all_eq_true] at hdigits
    exact stoul_digits _ hdigits.1 hdigits.2 hrange
  have heq := parseCprResponse_eq grammar cpr entries f _ hjson hname hd hrange
  refine ⟨?_, ?_, ?_⟩
  · intro root hroot
    rw [heq] at hroot
    obtain ⟨subs, _, hs⟩ := bind_eq_ok hroot
    cases hs
    exact ⟨rfl, rfl, rfl⟩
  · intro subs hsubs
    rw [heq, hsubs]
    rfl
  · intro hnone
    rw [heq]
    simp only [directSubfiles, Json.contains, hnone, Option.isSome_none, Bool.false_eq_true,
      if_false]
    rfl

/-- C5, witness: the JSON declares `len` 999 and `contenttype` `x/y`, the
headers say 5 and `text/plain`, and the root has 5 and `text/plain`. -/
theorem assembler_root_from_headers_witness :
    parseCprResponse exampleGrammar
        (metadataResponse overridingText "5".toList "text/plain".toList) =
      .ok (.mk "text/plain".toList "f".toList 5 []) :=
  (assembler_root_from_headers exampleGrammar
    (metadataResponse overridingText "5".toList "text/plain".toList)
    [("contenttype".toList, .string "x/y".toList), ("filename".toList, .string "f".toList),
      ("len".toList, .number_unsigned 999)]
    "f".toList (by rfl) (by rfl) (by decide) (by decide)).2.2 (by rfl)

theorem parse_subfile_subfiles (entries : List (Str × Json)) (root : subfile)
    (h : parse_subfile (.object entries) = .ok root) :
    subfilesField entries = .ok root.subfiles := by
  unfold parse_subfile at h
  obtain ⟨a, _, h⟩ := bind_eq_ok h
  obtain ⟨ct, _, h⟩ := bind_eq_ok h
  obtain ⟨b, _, h⟩ := bind_eq_ok h
  obtain ⟨n, _, h⟩ := bind_eq_ok h
  obtain ⟨c, _, h⟩ := bind_eq_ok h
  obtain ⟨f, _, h⟩ := bind_eq_ok h
  obtain ⟨subs, hsubs, h⟩ := bind_eq_ok h
  cases h
  exact hsubs

theorem assembler_subfiles (grammar : Str → Option Document) (cpr : Response) (json : Json)
    (root : subfile)
    (hjson : json_parse grammar (headerAt cpr.header "skynet-file-metadata".toList) = .ok json)
    (hroot : parseCprResponse grammar cpr = .ok root) :
    directSubfiles json = .ok root.subfiles := by
  have hroot' := hroot
  unfold parseCprResponse at hroot'
  obtain ⟨j0, hj0, hrest⟩ := bind_eq_ok hroot'
  obtain ⟨n, hn, _⟩ := bind_eq_ok hrest
  rw [hjson] at hj0
  cases hj0
  cases json with
  | object entries =>
    rw [parseCprResponse_object grammar cpr entries n hjson hn] at hroot
    have := parse_subfile_subfiles _ root hroot
    rw [subfilesField_injected, subfilesField_eq] at this
    exact this
  | null =>
    rw [parseCprResponse_null grammar cpr n hjson hn] at hroot
    have := parse_subfile_subfiles _ root hroot
    rw [subfilesField_injected] at this
    rw [← this]
    rfl
  | _ =>
    exfalso
    obtain ⟨j1, hj1, _⟩ := bind_eq_ok (bind_eq_ok hrest).choose_spec.2
    simp [Json.set] at hj1

/-- C6: for every response that the assembler accepts, the `subfiles` of the
assembled root are exactly what `parse_subfile` gives on the entries of the
`subfiles` field of the header JSON, names and whole subtrees, and they are the
same for every accepted response with the same metadata header, whatever its
`content-length` and `content-type` headers. -/
theorem assembler_children_from_json_only (grammar : Str → Option Document) (cpr : Response)
    (json : Json) (root : subfile)
    (hjson : json_parse grammar (headerAt cpr.header "skynet-file-metadata".toList) = .ok json)
    (hroot : parseCprResponse grammar cpr = .ok root) :
    directSubfiles json = .ok root.subfiles ∧
      ∀ (other : Response) (root' : subfile),
        headerAt other.header "skynet-file-metadata".toList
          = headerAt cpr.header "skynet-file-metadata".toList →
        parseCprResponse grammar other = .ok root' →
        root'.subfiles = root.subfiles := by
  have h1 := assembler_subfiles grammar cpr json root hjson hroot
  refine ⟨h1, ?_⟩
  intro other root' hsame hroot'
  have h2 := assembler_subfiles grammar other json root' (by rw [hsame]; exact hjson) hroot'
  rw [h1] at h2
  exact (Except.ok.inj h2).symm

/-- C6, witness: a directory with the files `a` and `b`, whose lengths 1 and 2
and content type `t` come from the JSON while the headers say 3 and `dir`. -/
theorem assembler_children_from_json_only_witness :
    directSubfiles (.object [("filename".toList, .string "d".toList),
        ("subfiles".toList, .object [
          ("a".toList, .object [("contenttype".toList, .string "t".toList),
            ("filename".toList, .string "a".toList), ("len".toList, .number_unsigned 1)]),
          ("b".toList, .object [("contenttype".toList, .string "t".toList),
            ("filename".toList, .string "b".toList), ("len".toList, .number_unsigned 2)])])])
      = .ok (subfile.mk "dir".toList "d".toList 3
          [("a".toList, .mk "t".toList "a".toList 1 []),
           ("b".toList, .mk "t".toList "b".toList 2 [])]).subfiles ∧
      ∀ (other : Response) (root' : subfile),
        headerAt other.header "skynet-file-metadata".toList
          = headerAt (metadataResponse directoryText "3".toList "dir".toList).header
              "skynet-file-metadata".toList →
        parseCprResponse exampleGrammar other = .ok root' →
        root'.subfiles = (subfile.mk "dir".toList "d".toList 3
          [("a".toList, .mk "t".toList "a".toList 1 []),
           ("b".toList, .mk "t".toList "b".toList 2 [])]).subfiles :=
  assembler_children_from_json_only exampleGrammar
    (metadataResponse directoryText "3".toList "dir".toList) _ _ (by rfl) (by rfl)

/-- C9, as stated, fails: the values `12abc`, `-1` and ` 7` of `content-length`
are not strings of decimal digits, and the assembler accepts them with the
lengths 12, `2 ^ 64 - 1` and 7. -/
theorem assembler_content_length_counterexample :
    isDigitString "12abc".toList = false ∧
      parseCprResponse exampleGrammar (responseWithLength "12abc".toList)
        = .ok (.mk "text/plain".toList "f".toList 12 []) ∧
    isDigitString "-1".toList = false ∧
      parseCprResponse exampleGrammar (responseWithLength "-1".toList)
        = .ok (.mk "text/plain".toList "f".toList (2 ^ 64 - 1) []) ∧
    isDigitString " 7".toList = false ∧
      parseCprResponse exampleGrammar (responseWithLength " 7".toList)
        = .ok (.mk "text/plain".toList "f".toList 7 []) :=
  ⟨by decide, by rfl, by decide, by rfl, by decide, by rfl⟩

/-- C9, amended: for every response whose `content-length` value does not
begin, after leading white space and an optional sign, with a decimal digit
(such as `abc` or the empty string), the assembler fails and produces no root:
with `std::invalid_argument` when the metadata header is a JSON text, and with
the `parse_error` of the metadata header otherwise. -/
theorem assembler_rejects_non_numeric_length (grammar : Str → Option Document)
    (cpr : Response)
    (hlen : startsWithNumber (headerAt cpr.header "content-length".toList) = false) :
    (∀ document, grammar (headerAt cpr.header "skynet-file-metadata".toList) = some document →
        parseCprResponse grammar cpr = .error .invalid_argument) ∧
      (grammar (headerAt cpr.header "skynet-file-metadata".toList) = none →
        parseCprResponse grammar cpr = .error .parse_error) := by
  have hs := stoul_invalid _ hlen
  unfold parseCprResponse json_parse
  constructor
  · intro d hd
    simp only [hd, hs, bind, Except.bind]
  · intro hg
    simp only [hg, bind, Except.bind]

/-- C9, witness: the values `abc` and the empty string are rejected. -/
theorem assembler_rejects_non_numeric_length_witness :
    parseCprResponse exampleGrammar (responseWithLength "abc".toList)
      = .error .invalid_argument :=
  (assembler_rejects_non_numeric_length exampleGrammar (responseWithLength "abc".toList)
    (by decide)).1 _ (by rfl)

/-- C7, as stated, fails: the text declares the subfiles `b` then `a`, its value
has the shape of the claim, and `parse_subfile` returns the children `a` then
`b`, not in the order of declaration. -/
theorem parse_subfile_declared_order_counterexample :
    shaped (directoryDocument
        [("b".toList, leafDocument "b".toList 2), ("a".toList, leafDocument "a".toList 1)]).dom
      = true ∧
    (directoryDocument
        [("b".toList, leafDocument "b".toList 2), ("a".toList, leafDocument "a".toList 1)]
      ).subfileNames = ["b".toList, "a".toList] ∧
    parse_subfile (directoryDocument
        [("b".toList, leafDocument "b".toList 2), ("a".toList, leafDocument "a".toList 1)]).dom
      = .ok (.mk "dir".toList "d".toList 3
          [("a".toList, .mk "t".toList "a".toList 1 []),
           ("b".toList, .mk "t".toList "b".toList 2 [])]) ∧
    (subfile.mk "dir".toList "d".toList 3
          [("a".toList, .mk "t".toList "a".toList 1 []),
           ("b".toList, .mk "t".toList "b".toList 2 [])]).names
      ≠ (directoryDocument
        [("b".toList, leafDocument "b".toList 2), ("a".toList, leafDocument "a".toList 1)]
      ).subfileNames :=
  ⟨by rfl, by rfl, by rfl, by decide⟩

/-- C7, amended: for every JSON object with a string `filename`, a string
`contenttype` and an unsigned-integer `len`, `parse_subfile` returns the node
with these three fields, with no children when there is no `subfiles` field,
and otherwise, when `subfiles` is an object whose values have recursively the
same shape, with one child `(name, parse_subfile(child))` per entry of the
parsed `subfiles` object, in the order in which that object is iterated (for
`nlohmann::json` the order of the names, not the order of declaration). -/
theorem parse_subfile_of_shape (entries : List (Str × Json)) (f c : Str) (n : Nat)
    (hf : lookup "filename".toList entries = some (.string f))
    (hc : lookup "contenttype".toList entries = some (.string c))
    (hn : lookup "len".toList entries = some (.number_unsigned n))
    (hlt : n < 2 ^ 64) :
    (lookup "subfiles".toList entries = none →
        parse_subfile (.object entries) = .ok (.mk c f n [])) ∧
      (∀ children, lookup "subfiles".toList entries = some (.object children) →
        shapedAll children = true →
        ∃ subs, parse_subfile (.object entries) = .ok (.mk c f n subs) ∧
          List.Forall₂ (fun entry sub => sub.1 = entry.1 ∧ parse_subfile entry.2 = .ok sub.2)
            children subs) := by
  have heq := parse_subfile_fields entries f c n hf hc hn hlt
  rw [subfilesField_eq] at heq
  constructor
  · intro hnone
    rw [heq]
    simp only [directSubfiles, Json.contains, hnone, Option.isSome_none, Bool.false_eq_true,
      if_false]
    rfl
  · intro children hsome hshape
    obtain ⟨subs, hsubs⟩ := shapedAll_ok children hshape
    rw [membersLoop_eq] at hsubs
    refine ⟨subs, ?_, parseEach_forall₂ children subs hsubs⟩
    rw [heq]
    simp only [directSubfiles, Json.contains, hsome, Option.isSome_some, if_true, Json.constAt,
      Json.items, bind, Except.bind, hsubs]
    rfl

/-- C7, witness: `{filename:"f",contenttype:"text/plain",len:5}` gives a leaf,
and the subfiles `a` and `b` give two children, `a` then `b`. -/
theorem parse_subfile_of_shape_witness :
    parse_subfile (.object [("contenttype".toList, .string "text/plain".toList),
        ("filename".toList, .string "f".toList), ("len".toList, .number_unsigned 5)])
      = .ok (.mk "text/plain".toList "f".toList 5 []) ∧
    ∃ subs,
      parse_subfile (.object [("contenttype".toList, .string "dir".toList),
          ("filename".toList, .string "d".toList), ("len".toList, .number_unsigned 3),
          ("subfiles".toList, .object [("a".toList, (leafDocument "a".toList 1).dom),
            ("b".toList, (leafDocument "b".toList 2).dom)])])
        = .ok (.mk "dir".toList "d".toList 3 subs) ∧
      List.Forall₂ (fun entry sub => sub.1 = entry.1 ∧ parse_subfile entry.2 = .ok sub.2)
        [("a".toList, (leafDocument "a".toList 1).dom),
          ("b".toList, (leafDocument "b".toList 2).dom)] subs :=
  ⟨(parse_subfile_of_shape _ "f".toList "text/plain".toList 5 (by rfl) (by rfl) (by rfl)
      (by decide)).1 (by rfl),
   (parse_subfile_of_shape _ "d".toList "dir".toList 3 (by rfl) (by rfl) (by rfl)
      (by decide)).2 _ (by rfl) (by rfl)⟩

/-- C8, as stated, fails: a `len` given as the negative number `-1` or as the
non-integer number `5.5` is not rejected; `parse_subfile` returns a node of
length `2 ^ 64 - 1`, respectively 5. -/
theorem parse_subfile_len_counterexample :
    parse_subfile (.object [("contenttype".toList, .string "t".toList),
        ("filename".toList, .string "f".toList), ("len".toList, .number_integer (-1))])
      = .ok (.mk "t".toList "f".toList (2 ^ 64 - 1) []) ∧
    parse_subfile (.object [("contenttype".toList, .string "t".toList),
        ("filename".toList, .string "f".toList), ("len".toList, .number_float 11 (-1))])
      = .ok (.mk "t".toList "f".toList 5 []) :=
  ⟨by rfl, by rfl⟩

/-- C8, amended: for every JSON object in which every `subfiles` field is an
object of objects and no required field is missing (a `len` that is a float
being in the range of `size_t`), in the object itself or in a nested subfile
object, `parse_subfile` fails with a `nlohmann::json::type_error`, and returns
no node, whenever `filename` or `contenttype` is present with a type other
than string, or `len` is present as a string, `null`, an array or an object,
in the object itself or in a nested subfile object. -/
theorem parse_subfile_rejects_wrong_types (v : Json) (hcomplete : complete v = true)
    (hill : illTyped v = true) : ∃ id, parse_subfile v = .error (.type_error id) :=
  illTyped_isTypeError v hcomplete hill

/-- C8, witness: a nested subfile whose `len` is the string `5`. -/
theorem parse_subfile_rejects_wrong_types_witness :
    ∃ id, parse_subfile (.object [("contenttype".toList, .string "dir".toList),
        ("filename".toList, .string "d".toList), ("len".toList, .number_unsigned 3),
        ("subfiles".toList, .object [("a".toList,
          .object [("contenttype".toList, .string "t".toList),
            ("filename".toList, .string "a".toList),
            ("len".toList, .string "5".toList)])])])
      = .error (.type_error id) :=
  parse_subfile_rejects_wrong_types _ (by rfl) (by rfl)

/-- C10: in a header `pre ++ "filename=" ++ [q] ++ v ++ rest`, where `q` is a
single or a double quote, the `filename=` shown is the first one, `v` does not
contain `q`, and `rest` is empty or begins with `q`, the extracted file name is
exactly `v`: a missing closing quote lets the value run to the end of the
header, and semicolons and spaces between the quotes are kept. -/
theorem extract_quoted_filename (pre v rest : Str) (q : Char)
    (hq : q = '\'' ∨ q = '"')
    (hfirst : ∀ k, k < pre.length →
      ¬ "filename=".toList <+: (pre ++ "filename=".toList).drop k)
    (hv : q ∉ v) (hrest : rest = [] ∨ ∃ r, rest = q :: r) :
    extractContentDispositionFilename (pre ++ "filename=".toList ++ [q] ++ v ++ rest)
      = .ok v := by
  have h9 : "filename=".toList.length = 9 := by decide
  generalize hpat : "filename=".toList = pat at hfirst h9 ⊢
  have hfind : find (pre ++ pat ++ [q] ++ v ++ rest) pat 0 = some pre.length := by
    have := find_first pre pat ([q] ++ v ++ rest) hfirst
    simpa [List.append_assoc] using this
  have hchar : charAt (pre ++ pat ++ [q] ++ v ++ rest) (pre.length + 9) = .ok q := by
    have := charAt_append (pre ++ pat) (v ++ rest) q
    simpa [List.append_assoc, h9] using this
  have hquoted : (decide (q = '\'') || decide (q = '"')) = true := by
    rcases hq with h | h <;> subst h <;> decide
  have hlen : (pre ++ pat ++ [q]).length = pre.length + 9 + 1 := by simp [h9]
  unfold extractContentDispositionFilename
  rw [hpat, hfind]
  simp only [hchar, bind, Except.bind, hquoted, if_true]
  rcases hrest with hnil | ⟨r, hr⟩
  · subst hnil
    have hnone : findChar (pre ++ pat ++ [q] ++ v ++ []) q (pre.length + 9 + 1) = none := by
      have := findChar_unclosed (pre ++ pat ++ [q]) v q hv
      rw [hlen] at this
      simpa using this
    rw [hnone]
    dsimp only
    have hL : (pre ++ pat ++ [q] ++ v ++ []).length = pre.length + 9 + 1 + v.length := by
      simp [h9]; omega
    rw [range_ok _ _ _ (by rw [hL]; exact Nat.le_add_right _ _) le_rfl]
    congr 1
    have hd : (pre ++ pat ++ [q] ++ v ++ []).drop (pre.length + 9 + 1) = v := by
      rw [← hlen, List.append_nil]
      exact List.drop_left _ _
    rw [hd]
    apply List.take_of_length_le
    rw [hL]
    exact Nat.le_of_eq (Nat.add_sub_cancel_left _ _).symm
  · subst hr
    have hsome : findChar (pre ++ pat ++ [q] ++ v ++ q :: r) q (pre.length + 9 + 1)
        = some (pre.length + 9 + 1 + v.length) := by
      have := findChar_closing (pre ++ pat ++ [q]) v r q hv
      rw [hlen] at this
      exact this
    rw [hsome]
    dsimp only
    have hL : (pre ++ pat ++ [q] ++ v ++ q :: r).length
        = pre.length + 9 + 1 + v.length + (r.length + 1) := by
      simp [h9]; omega
    rw [range_ok _ _ _ (Nat.le_add_right _ _) (by rw [hL]; exact Nat.le_add_right _ _)]
    congr 1
    have hd : (pre ++ pat ++ [q] ++ v ++ q :: r).drop (pre.length + 9 + 1) = v ++ q :: r := by
      rw [← hlen, List.append_assoc (pre ++ pat ++ [q])]
      exact List.drop_left _ _
    rw [hd, Nat.add_sub_cancel_left]
    exact List.take_left _ _

/-- C10, witness: `inline; filename="a.txt"; size=1` gives `a.txt`, and
`inline; filename='a b.txt'` gives `a b.txt`. -/
theorem extract_quoted_filename_witness :
    extractContentDispositionFilename
        ("inline; ".toList ++ "filename=".toList ++ ['"'] ++ "a.txt".toList
          ++ "\"; size=1".toList)
      = .ok "a.txt".toList ∧
    extractContentDispositionFilename
        ("inline; ".toList ++ "filename=".toList ++ ['\''] ++ "a b.txt".toList ++ ['\''])
      = .ok "a b.txt".toList :=
  ⟨extract_quoted_filename "inline; ".toList "a.txt".toList "\"; size=1".toList '"'
      (Or.inr rfl) (by decide) (by decide) (Or.inr ⟨"; size=1".toList, rfl⟩),
   extract_quoted_filename "inline; ".toList "a b.txt".toList ['\''] '\''
      (Or.inl rfl) (by decide) (by decide) (Or.inr ⟨[], rfl⟩)⟩

theorem find_absent (h pat : Str) (habsent : ¬ pat <:+: h) : find h pat 0 = none := by
  apply find_eq_none
  intro k _ _ hp
  apply habsent
  obtain ⟨t, ht⟩ := hp
  exact ⟨h.take k, t, by rw [List.append_assoc, ht, List.take_append_drop]⟩

theorem charAt_unquoted (a w : Str)
    (hw : ∀ c t, w = c :: t → c ≠ '\'' ∧ c ≠ '"') :
    ∃ c, charAt (a ++ w) a.length = .ok c ∧ (decide (c = '\'') || decide (c = '"')) = false := by
  cases w with
  | nil =>
    refine ⟨Char.ofNat 0, ?_, by decide⟩
    simp [charAt]
  | cons c t =>
    obtain ⟨h1, h2⟩ := hw c t rfl
    exact ⟨c, charAt_append a t c, by simp [h1, h2]⟩

/-- C11: a header that does not contain `filename=` gives the empty string;
and in a header `pre ++ "filename=" ++ v ++ rest`, where the `filename=` shown
is the first one, `v` does not begin with a quote and contains no `;`, and
`rest` is empty or begins with `;`, the extracted file name is exactly `v`,
with no white space removed. -/
theorem extract_unquoted_or_absent_filename :
    (∀ h : Str, ¬ "filename=".toList <:+: h → extractContentDispositionFilename h = .ok []) ∧
      (∀ pre v rest : Str,
        (∀ k, k < pre.length → ¬ "filename=".toList <+: (pre ++ "filename=".toList).drop k) →
        (∀ c t, v = c :: t → c ≠ '\'' ∧ c ≠ '"') →
        ';' ∉ v →
        (rest = [] ∨ ∃ r, rest = ';' :: r) →
        extractContentDispositionFilename (pre ++ "filename=".toList ++ v ++ rest) = .ok v) := by
  constructor
  · intro h habsent
    unfold extractContentDispositionFilename
    rw [find_absent h _ habsent]
  · intro pre v rest hfirst hstart hv hrest
    have h9 : "filename=".toList.length = 9 := by decide
    generalize hpat : "filename=".toList = pat at hfirst h9 ⊢
    have hfind : find (pre ++ pat ++ v ++ rest) pat 0 = some pre.length := by
      have := find_first pre pat (v ++ rest) hfirst
      simpa [List.append_assoc] using this
    have hlen : (pre ++ pat).length = pre.length + 9 := by simp [h9]
    have hw : ∀ c t, v ++ rest = c :: t → c ≠ '\'' ∧ c ≠ '"' := by
      intro c t hct
      cases v with
      | cons c' t' =>
        simp only [List.cons_append, List.cons.injEq] at hct
        obtain ⟨hc, _⟩ := hct
        subst hc
        exact hstart c' t' rfl
      | nil =>
        rcases hrest with hnil | ⟨r, hr⟩
        · subst hnil; cases hct
        · subst hr
          simp only [List.nil_append, List.cons.injEq] at hct
          obtain ⟨hc, _⟩ := hct
          subst hc
          exact ⟨by decide, by decide⟩
    obtain ⟨c, hchar, hquoted⟩ := charAt_unquoted (pre ++ pat) (v ++ rest) hw
    rw [hlen, ← List.append_assoc] at hchar
    unfold extractContentDispositionFilename
    rw [hpat, hfind]
    simp only [hchar, bind, Except.bind, hquoted, Bool.false_eq_true, if_false]
    rcases hrest with hnil | ⟨r, hr⟩
    · subst hnil
      have hnone : findChar (pre ++ pat ++ v ++ []) ';' (pre.length + 9) = none := by
        have := findChar_unclosed (pre ++ pat) v ';' hv
        rw [hlen] at this
        simpa using this
      rw [hnone]
      dsimp only
      have hL : (pre ++ pat ++ v ++ []).length = pre.length + 9 + v.length := by
        simp [h9]; omega
      rw [range_ok _ _ _ (by rw [hL]; exact Nat.le_add_right _ _) le_rfl]
      congr 1
      have hd : (pre ++ pat ++ v ++ []).drop (pre.length + 9) = v := by
        rw [← hlen, List.append_nil]
        exact List.drop_left _ _
      rw [hd]
      apply List.take_of_length_le
      rw [hL]
      exact Nat.le_of_eq (Nat.add_sub_cancel_left _ _).symm
    · subst hr
      have hsome : findChar (pre ++ pat ++ v ++ ';' :: r) ';' (pre.length + 9)
          = some (pre.length + 9 + v.length) := by
        have := findChar_closing (pre ++ pat) v r ';' hv
        rw [hlen] at this
        exact this
      rw [hsome]
      dsimp only
      have hL : (pre ++ pat ++ v ++ ';' :: r).length
          = pre.length + 9 + v.length + (r.length + 1) := by
        simp [h9]; omega
      rw [range_ok _ _ _ (Nat.le_add_right _ _) (by rw [hL]; exact Nat.le_add_right _ _)]
      congr 1
      have hd : (pre ++ pat ++ v ++ ';' :: r).drop (pre.length + 9) = v ++ ';' :: r := by
        rw [← hlen, List.append_assoc (pre ++ pat)]
        exact List.drop_left _ _
      rw [hd, Nat.add_sub_cancel_left]
      exact List.take_left _ _

/-- C11, witness: `inline` gives the empty string and `inline; filename=a.txt`
gives `a.txt`. -/
theorem extract_unquoted_or_absent_filename_witness :
    extractContentDispositionFilename "inline".toList = .ok [] ∧
      extractContentDispositionFilename
          ("inline; ".toList ++ "filename=".toList ++ "a.txt".toList ++ []) = .ok "a.txt".toList :=
  ⟨extract_unquoted_or_absent_filename.1 "inline".toList (by decide),
   extract_unquoted_or_absent_filename.2 "inline; ".toList "a.txt".toList []
      (by decide) (by intro c t h; cases h; exact ⟨by decide, by decide⟩) (by decide)
      (Or.inl rfl)⟩

/-- C12, the code at the failing input: on the empty string `url.size() - 1`
wraps to `2 ^ 64 - 1`, the read `url[url.size() - 1]` is outside the string,
and `trimTrailingSlash` has no defined result. -/
theorem trimTrailingSlash_empty_out_of_bounds :
    (([] : Str).length + SIZE_MODULUS - 1) % SIZE_MODULUS = 2 ^ 64 - 1 ∧
      charAt [] ((([] : Str).length + SIZE_MODULUS - 1) % SIZE_MODULUS) = .error .undefined ∧
      trimTrailingSlash [] = .error .undefined ∧
      trimTrailingSlash [] ≠ .ok [] := by
  decide

/-- C13: for every non-empty string (of a length that a `size_t` holds), when
the last character is `/` the result is the string without that one
character, and otherwise the result is the string itself. -/
theorem trimTrailingSlash_nonempty (s : Str) (hne : s ≠ []) (hlen : s.length < 2 ^ 64) :
    (s.getLast? = some '/' → trimTrailingSlash s = .ok s.dropLast) ∧
      (s.getLast? ≠ some '/' → trimTrailingSlash s = .ok s) := by
  rw [trimTrailingSlash_eq s hne hlen]
  constructor
  · intro h; rw [if_pos h]
  · intro h; rw [if_neg h]

/-- C13, witness: `https://x/` gives `https://x`, `a//` gives `a/`, and
`https://x` is unchanged. -/
theorem trimTrailingSlash_nonempty_witness :
    trimTrailingSlash "https://x/".toList = .ok "https://x".toList ∧
      trimTrailingSlash "a//".toList = .ok "a/".toList ∧
      trimTrailingSlash "https://x".toList = .ok "https://x".toList :=
  ⟨(trimTrailingSlash_nonempty "https://x/".toList (by decide) (by decide)).1 (by decide),
   (trimTrailingSlash_nonempty "a//".toList (by decide) (by decide)).1 (by decide),
   (trimTrailingSlash_nonempty "https://x".toList (by decide) (by decide)).2 (by decide)⟩

/-- C14: for every string, the empty string and strings shorter than six
characters included, `trimSiaPrefix` returns the string without its first six
characters when it starts with `sia://`, and the string itself otherwise; it
never throws. -/
theorem trimSiaPrefix_spec (s : Str) :
    ("sia://".toList <+: s → trimSiaPrefix s = .ok (s.drop 6)) ∧
      (¬ "sia://".toList <+: s → trimSiaPrefix s = .ok s) := by
  rw [trimSiaPrefix_eq]
  constructor
  · intro h; rw [if_pos h]
  · intro h; rw [if_neg h]

/-- C14, witness: `sia://abc` gives `abc`, while `abc`, `sia:` and the empty
string are unchanged. -/
theorem trimSiaPrefix_spec_witness :
    trimSiaPrefix "sia://abc".toList = .ok "abc".toList ∧
      trimSiaPrefix "abc".toList = .ok "abc".toList ∧
      trimSiaPrefix "sia:".toList = .ok "sia:".toList ∧
      trimSiaPrefix [] = .ok [] :=
  ⟨(trimSiaPrefix_spec "sia://abc".toList).1 (by decide),
   (trimSiaPrefix_spec "abc".toList).2 (by decide),
   (trimSiaPrefix_spec "sia:".toList).2 (by decide),
   (trimSiaPrefix_spec []).2 (by decide)⟩

theorem trimTrailingSlash_total (s : Str) (hne : s ≠ []) (hlen : s.length < 2 ^ 64) :
    ∃ r, trimTrailingSlash s = .ok r :=
  ⟨_, trimTrailingSlash_eq s hne hlen⟩

/-- C15: with a non-empty base URL and upload path, the multi-file `write`
issues exactly one POST request, for every sequence of files, the empty one
included; the request has the single query parameter `filename` and one
multipart part per file, in the order of the files, each under the directory
field name and with the file's own name and bytes. -/
theorem write_files_request (grammar : Str → Option Document) (net : Request → Response)
    (options : portal_options) (files : List upload) (filename : Str)
    (hurl : options.url ≠ []) (hpath : options.uploadPath ≠ [])
    (hurlLen : options.url.length < 2 ^ 64) (hpathLen : options.uploadPath.length < 2 ^ 64) :
    ∃ request, (skynet.write_files grammar net options files filename).1 = [request] ∧
      request.method = .POST ∧
      request.parameters = [("filename".toList, filename)] ∧
      request.multipart.length = files.length ∧
      (∀ i (h : i < files.length), request.multipart[i]? =
        some (Part.mk options.directoryFileFieldname (files.get ⟨i, h⟩).filename
          (files.get ⟨i, h⟩).data)) ∧
      (files = [] → request.multipart = []) := by
  obtain ⟨a, ha⟩ := trimTrailingSlash_total options.url hurl hurlLen
  obtain ⟨b, hb⟩ := trimTrailingSlash_total options.uploadPath hpath hpathLen
  refine ⟨_, write_files_sent grammar net options files filename a b ha hb, rfl, rfl, ?_, ?_, ?_⟩
  · simp
  · intro i h
    simp [List.getElem?_map, List.getElem?_eq_getElem h]
  · intro hnil
    subst hnil
    rfl

/-- C15, witness: two files with the default options, and no file at all. -/
theorem write_files_request_witness :
    (∃ request, (skynet.write_files exampleGrammar (constantPortal uploadedResponse)
          skynet.default_options [upload.mk "a.txt".toList [1], upload.mk "b.txt".toList [2, 3]]
          "dir".toList).1 = [request] ∧
      request.method = .POST ∧
      request.parameters = [("filename".toList, "dir".toList)] ∧
      request.multipart.length
        = [upload.mk "a.txt".toList [1], upload.mk "b.txt".toList [2, 3]].length ∧
      (∀ i (h : i < [upload.mk "a.txt".toList [1], upload.mk "b.txt".toList [2, 3]].length),
        request.multipart[i]? =
          some (Part.mk skynet.default_options.directoryFileFieldname
            ([upload.mk "a.txt".toList [1], upload.mk "b.txt".toList [2, 3]].get ⟨i, h⟩).filename
            ([upload.mk "a.txt".toList [1], upload.mk "b.txt".toList [2, 3]].get ⟨i, h⟩).data)) ∧
      ([upload.mk "a.txt".toList [1], upload.mk "b.txt".toList [2, 3]] = [] →
        request.multipart = [])) ∧
    (∃ request, (skynet.write_files exampleGrammar (constantPortal uploadedResponse)
          skynet.default_options [] "dir".toList).1 = [request] ∧
      request.method = .POST ∧
      request.parameters = [("filename".toList, "dir".toList)] ∧
      request.multipart.length = ([] : List upload).length ∧
      (∀ i (h : i < ([] : List upload).length),
        request.multipart[i]? =
          some (Part.mk skynet.default_options.directoryFileFieldname
            (([] : List upload).get ⟨i, h⟩).filename (([] : List upload).get ⟨i, h⟩).data)) ∧
      (([] : List upload) = [] → request.multipart = [])) :=
  ⟨write_files_request exampleGrammar (constantPortal uploadedResponse) skynet.default_options
      [upload.mk "a.txt".toList [1], upload.mk "b.txt".toList [2, 3]] "dir".toList
      (by decide) (by decide) (by decide) (by decide),
   write_files_request exampleGrammar (constantPortal uploadedResponse) skynet.default_options
      [] "dir".toList (by decide) (by decide) (by decide) (by decide)⟩

/-- C17: with a non-empty base URL and upload path, both trims return; the
single-file `write` posts to the trimmed base URL followed by the trimmed
upload path, and the multi-file `write` posts to the same two parts with one
`/` between them. -/
theorem upload_urls (grammar : Str → Option Document) (net : Request → Response)
    (options : portal_options) (data : List Nat) (files : List upload) (filename : Str)
    (hurl : options.url ≠ []) (hpath : options.uploadPath ≠ [])
    (hurlLen : options.url.length < 2 ^ 64) (hpathLen : options.uploadPath.length < 2 ^ 64) :
    (∃ base, trimTrailingSlash options.url = .ok base) ∧
      (∃ path, trimTrailingSlash options.uploadPath = .ok path) ∧
      ∀ base path, trimTrailingSlash options.url = .ok base →
        trimTrailingSlash options.uploadPath = .ok path →
        (skynet.write grammar net options data filename).1.map Request.url = [base ++ path] ∧
          (skynet.write_files grammar net options files filename).1.map Request.url
            = [base ++ "/".toList ++ path] := by
  refine ⟨trimTrailingSlash_total _ hurl hurlLen, trimTrailingSlash_total _ hpath hpathLen, ?_⟩
  intro base path ha hb
  rw [write_sent grammar net options data filename base path ha hb,
    write_files_sent grammar net options files filename base path ha hb]
  exact ⟨rfl, rfl⟩

/-- C17, witness: with the default options the single-file upload goes to
`https://siasky.net/skynet/skyfile` and the multi-file upload to
`https://siasky.net//skynet/skyfile`. -/
theorem upload_urls_witness :
    (skynet.write exampleGrammar (constantPortal uploadedResponse) skynet.default_options
        [104, 105] "hi.txt".toList).1.map Request.url
      = ["https://siasky.net".toList ++ "/skynet/skyfile".toList] ∧
    (skynet.write_files exampleGrammar (constantPortal uploadedResponse) skynet.default_options
        [upload.mk "hi.txt".toList [104, 105]] "hi.txt".toList).1.map Request.url
      = ["https://siasky.net".toList ++ "/".toList ++ "/skynet/skyfile".toList] :=
  (upload_urls exampleGrammar (constantPortal uploadedResponse) skynet.default_options
    [104, 105] [upload.mk "hi.txt".toList [104, 105]] "hi.txt".toList
    (by decide) (by decide) (by decide) (by decide)).2.2
    "https://siasky.net".toList "/skynet/skyfile".toList (by decide) (by decide)

theorem not_mem_range (h : Str) (d : Char) (start stop : Nat) (hstop : stop ≤ h.length)
    (hmin : ∀ k, start ≤ k → k < stop → ¬ [d] <+: h.drop k) :
    d ∉ (h.drop start).take (stop - start) := by
  intro hmem
  obtain ⟨i, hi, hget⟩ := List.mem_iff_getElem.mp hmem
  simp only [List.length_take, List.length_drop] at hi
  have hlt : start + i < h.length := by omega
  have hget' : h[start + i] = d := by
    simpa using hget
  apply hmin (start + i) (by omega) (by omega)
  rw [List.drop_eq_getElem_cons hlt, hget']
  exact ⟨_, rfl⟩

theorem range_infix (h : Str) (start n : Nat) : (h.drop start).take n <:+: h :=
  (List.take_prefix n (h.drop start)).isInfix.trans (List.drop_suffix start h).isInfix

/-- The range that the header parser returns when `filename=` is found at
`found` and the character after it is `c`. -/
theorem extract_found (h : Str) (found : Nat) (c : Char)
    (hfind : find h "filename=".toList 0 = some found)
    (hchar : charAt h (found + 9) = .ok c) :
    ∃ stop,
      (if (c = '\'' ∨ c = '"') then found + 9 + 1 else found + 9) ≤ stop ∧ stop ≤ h.length ∧
      extractContentDispositionFilename h =
        .ok ((h.drop (if (c = '\'' ∨ c = '"') then found + 9 + 1 else found + 9)).take
          (stop - (if (c = '\'' ∨ c = '"') then found + 9 + 1 else found + 9))) ∧
      (if (c = '\'' ∨ c = '"') then c else ';') ∉
        (h.drop (if (c = '\'' ∨ c = '"') then found + 9 + 1 else found + 9)).take
          (stop - (if (c = '\'' ∨ c = '"') then found + 9 + 1 else found + 9)) := by
  obtain ⟨_, _, hp, _⟩ := find_some h _ 0 found hfind
  have hlen := hp.length_le
  simp only [List.length_drop] at hlen
  have h9 : "filename=".toList.length = 9 := by decide
  rw [h9] at hlen
  have hstart : (if (c = '\'' ∨ c = '"') then found + 9 + 1 else found + 9) ≤ h.length := by
    split
    · rename_i hq
      by_cases hlt : found + 9 < h.length
      · omega
      · exfalso
        have heq : found + 9 = h.length := by omega
        have : charAt h (found + 9) = .ok (Char.ofNat 0) := by simp [charAt, heq]
        rw [this] at hchar
        have hc : c = Char.ofNat 0 := (Except.ok.inj hchar).symm
        subst hc
        revert hq
        decide
    · omega
  unfold extractContentDispositionFilename
  rw [hfind]
  simp only [hchar, bind, Except.bind, Bool.or_eq_true, decide_eq_true_eq]
  generalize (if (c = '\'' ∨ c = '"') then found + 9 + 1 else found + 9) = start at hstart ⊢
  generalize (if (c = '\'' ∨ c = '"') then c else ';') = d
  cases hfc : findChar h d start with
  | none =>
    dsimp only
    refine ⟨h.length, hstart, le_rfl, range_ok _ _ _ hstart le_rfl, ?_⟩
    apply not_mem_range h d start h.length le_rfl
    intro k hk1 hk2
    exact find_none h [d] start hfc hstart k hk1 (by omega)
  | some e =>
    dsimp only
    obtain ⟨a, b, _, hmin⟩ := find_some h [d] start e hfc
    exact ⟨e, a, b, range_ok _ _ _ a b, not_mem_range h d start e b hmin⟩

/-- C18: on every header the parser returns, reading inside the string only.
When `filename=` is absent the result is empty. When it is found at `found`,
the character `c` after it is read in bounds, the range returned runs from
`start` (after the opening quote when `c` is a quote) to `stop` with
`start ≤ stop ≤ length`, and the result does not contain the delimiter chosen
(`c` when it is a quote, `;` otherwise). In both cases the result is a
contiguous substring of the header. -/
theorem extract_total_in_bounds (h : Str) :
    ∃ v, extractContentDispositionFilename h = .ok v ∧ v <:+: h ∧
      ((find h "filename=".toList 0 = none ∧ v = []) ∨
        ∃ found c start stop delimiter,
          find h "filename=".toList 0 = some found ∧
          charAt h (found + 9) = .ok c ∧
          start = (if (c = '\'' ∨ c = '"') then found + 9 + 1 else found + 9) ∧
          delimiter = (if (c = '\'' ∨ c = '"') then c else ';') ∧
          start ≤ stop ∧ stop ≤ h.length ∧
          v = (h.drop start).take (stop - start) ∧
          delimiter ∉ v) := by
  cases hfind : find h "filename=".toList 0 with
  | none =>
    refine ⟨[], ?_, List.nil_infix, Or.inl ⟨rfl, rfl⟩⟩
    unfold extractContentDispositionFilename
    rw [hfind]
  | some found =>
    obtain ⟨_, _, hp, _⟩ := find_some h _ 0 found hfind
    have hlen := hp.length_le
    simp only [List.length_drop] at hlen
    have h9 : "filename=".toList.length = 9 := by decide
    rw [h9] at hlen
    have hchar : ∃ c, charAt h (found + 9) = .ok c := by
      unfold charAt
      by_cases hlt : found + 9 < h.length
      · exact ⟨_, by rw [dif_pos hlt]⟩
      · exact ⟨_, by rw [dif_neg hlt, if_pos (by omega)]⟩
    obtain ⟨c, hc⟩ := hchar
    obtain ⟨stop, h1, h2, h3, h4⟩ := extract_found h found c hfind hc
    exact ⟨_, h3, range_infix _ _ _,
      Or.inr ⟨found, c, _, stop, _, rfl, hc, rfl, rfl, h1, h2, rfl, h4⟩⟩

/-- C18 on the edge cases: the empty header, a header that ends right after
`filename=`, and a header that ends right after an opening quote all give the
empty string. -/
theorem extract_edge_cases :
    extractContentDispositionFilename [] = .ok [] ∧
      extractContentDispositionFilename "inline; filename=".toList = .ok [] ∧
      extractContentDispositionFilename "inline; filename=\"".toList = .ok [] ∧
      extractContentDispositionFilename "filename=a;filename=b".toList = .ok "a".toList := by
  decide

/-- C19, as stated, fails: a `subfiles` array of eleven leaves is accepted by
`parse_subfile`, and the children are named by their index, `0` to `10`, in
index order, which is not ascending: `10` is below `9`. -/
theorem parse_subfile_array_names_counterexample :
    (parse_subfile (arrayDirectoryDocument 11).dom).map subfile.names
      = .ok ["0".toList, "1".toList, "2".toList, "3".toList, "4".toList, "5".toList,
          "6".toList, "7".toList, "8".toList, "9".toList, "10".toList] ∧
    ¬ Ascending ["0".toList, "1".toList, "2".toList, "3".toList, "4".toList, "5".toList,
          "6".toList, "7".toList, "8".toList, "9".toList, "10".toList] ∧
    strLt "10".toList "9".toList = true :=
  ⟨by rfl, by decide, by decide⟩

/-- C19, amended: for every JSON text whose value `parse_subfile` accepts, if
every `subfiles` field of the value is a JSON object then at every node of the
resulting tree the child names are pairwise distinct and in strictly ascending
byte-wise order, whatever the order of the entries in the text; and in any
case the child names of a node are either so ordered or, for children that
come from a `subfiles` array, the decimal indices `0`, `1`, ... in index
order. -/
theorem parse_subfile_names_ascending (d : Document) (t : subfile)
    (h : parse_subfile d.dom = .ok t) :
    (objectSubfiles d.dom = true → t.EveryNode AscendingDistinct) ∧
      t.EveryNode NodeNames :=
  ⟨fun ho => parse_subfile_ascending d.dom t (dom_sorted d) ho h,
   parse_subfile_ordered d.dom t (dom_sorted d) h⟩

/-- C19, witness: the subfiles `b` and `a`, declared in this order, come out as
`a` then `b`. -/
theorem parse_subfile_names_ascending_witness :
    (subfile.mk "dir".toList "d".toList 3
        [("a".toList, .mk "t".toList "a".toList 1 []),
         ("b".toList, .mk "t".toList "b".toList 2 [])]).EveryNode AscendingDistinct :=
  (parse_subfile_names_ascending
    (directoryDocument
      [("b".toList, leafDocument "b".toList 2), ("a".toList, leafDocument "a".toList 1)])
    (.mk "dir".toList "d".toList 3
      [("a".toList, .mk "t".toList "a".toList 1 []),
       ("b".toList, .mk "t".toList "b".toList 2 [])])
    (by rfl)).1 (by rfl)

end sia
